import Mathlib

/-!
# Site analyzer: crawl_full.js and scripts/extract_spec.js

A shallow embedding of the selector derivation, the interaction probing loop and the
colour summary of `crawl_full.js`, and of the component export of
`scripts/extract_spec.js`, with the properties proved about them.

## Conventions

* A JavaScript string is a sequence of UTF-16 code units, so `JsString` is a list of
  natural numbers; `length`, `slice` and the regular expressions of the source (none has
  the `u` flag) all work on code units. `utf16` turns a Lean string into its code units.
* `undefined` and `null` are both `none`; a property read on a record that lacks the
  property is `none`.
* The browser is an abstract `Page`: every awaited call is a function on an explicit
  page state, so a call may change anything about the page, its URL included.
-/

namespace SiteAnalyzer

/-! ## JavaScript strings -/

/-- A JavaScript string: its UTF-16 code units. -/
abbrev JsString := List Nat

/-- UTF-16 code units of one Unicode scalar value. -/
def utf16Char (c : Char) : List Nat :=
  if c.toNat < 65536 then [c.toNat]
  else [55296 + (c.toNat - 65536) / 1024, 56320 + (c.toNat - 65536) % 1024]

/-- UTF-16 code units of a Lean string (used to write string literals of the source). -/
def utf16 (s : String) : JsString :=
  s.toList.flatMap utf16Char

/-- Worker of `decimal`: peels off the last digit until the number is below ten. The first
argument bounds the number of digits and is always large enough where it is used. -/
def decimalAux : Nat → Nat → JsString → JsString
  | 0, _, acc => acc
  | fuel + 1, n, acc =>
    if n < 10 then (48 + n) :: acc
    else decimalAux fuel (n / 10) ((48 + n % 10) :: acc)

/-- Decimal rendering of a non-negative integer, as a template literal inserts it. -/
def decimal (n : Nat) : JsString :=
  decimalAux (n + 1) n []

/-- The method `String.prototype.toLowerCase` restricted to ASCII strings: the letters
`A`-`Z` (code units 65-90) are folded and every other code unit is left as it is. It is
applied only to strings that are known to be ASCII (the name sanitised by `safeName`); where
the argument may hold any character (`makeSel`), lower-casing is a parameter. -/
def toLowerCase (s : JsString) : JsString :=
  s.map fun u => if 65 ≤ u ∧ u ≤ 90 then u + 32 else u

/-- The code units matched by `\s` (and removed by `trim`): the white space and line
terminator characters of ECMAScript. -/
def isWhiteSpace (u : Nat) : Bool :=
  u = 9 || u = 10 || u = 11 || u = 12 || u = 13 || u = 32 || u = 160 || u = 5760 ||
  (decide (8192 ≤ u) && decide (u ≤ 8202)) || u = 8232 || u = 8233 || u = 8239 ||
  u = 8287 || u = 12288 || u = 65279

/-- The call `xs.join(sep)` on an array of strings. -/
def join (sep : JsString) : List JsString → JsString
  | [] => []
  | [x] => x
  | x :: y :: rest => x ++ sep ++ join sep (y :: rest)

/-! ## Selector discovery: `makeSel` (crawl_full.js, lines 132-151) -/

/-- What reading a string property (`tagName`, `id`) of a DOM object gives. The DOM
defines a string; on a `form` element a control whose name is the name of the property
shadows it, and the read gives that control (or the `RadioNodeList` of several controls):
an object without string methods that converts to the string `rendering`, for instance
`[object HTMLInputElement]`. -/
inductive StringRead where
  | missing
  | text (s : JsString)
  | object (rendering : JsString)
deriving DecidableEq, Repr

/-- What reading `el.classList` gives: the class tokens, or on a `form` with a control
named `classList` that control, of which only the `length` property matters (`none` when it
has none; a `select` and a `RadioNodeList` have one and hold that many elements). -/
inductive ClassListRead where
  | missing
  | tokens (classes : List JsString)
  | object (length : Option Nat)
deriving DecidableEq, Repr

/-- A child of the parent, as `makeSel` reads it: the identity of the DOM object (`ref`,
compared by `indexOf`) and what reading its `tagName` gives. -/
structure Sibling where
  ref : Nat
  tagName : StringRead
deriving DecidableEq, Repr

/-- What `Array.from(parent.children)` is applied to: `items` lists the elements that
`Array.from` yields (those of the `HTMLCollection`; none for a shadowing control that is
neither iterable nor has a `length`), and `missing` is `undefined`, on which `Array.from`
throws. -/
inductive ChildrenRead where
  | missing
  | items (children : List Sibling)
deriving DecidableEq, Repr

/-- A DOM element, as `makeSel` reads it: the identity of the DOM object and what reading
each of the four properties gives. `parentElement` is `none` for `null`, and otherwise says
what reading `children` on the parent gives. -/
structure Element where
  ref : Nat
  tagName : StringRead
  id : StringRead
  classList : ClassListRead
  parentElement : Option ChildrenRead
deriving DecidableEq, Repr

/-- The result of `makeSel`: `null`, a selector, or a `TypeError` thrown inside it. -/
inductive SelectorResult where
  | null
  | selector (s : JsString)
  | typeError
deriving DecidableEq, Repr

/-- The call `siblings.indexOf(el) + 1`: `indexOf` compares object identities and gives
`-1` when the element is absent, so the sum is `0` then. -/
def indexOfPlusOne (siblings : List Sibling) (ref : Nat) : Nat :=
  match siblings.findIdx? (fun ch => ch.ref == ref) with
  | some j => j + 1
  | none => 0

/-- The test `if (el.id)` and the text that the template literal inserts for `el.id`:
`none` when the value is falsy. An object is truthy and is inserted as its rendering. -/
def idText (id : StringRead) : Option JsString :=
  match id with
  | .missing => none
  | .text t => if t = [] then none else some t
  | .object rendering => some rendering

/-- The last branch of `makeSel` (lines 140-148), for the selector `s` built so far and the
value `tag` of `el.tagName`. -/
def nthOfTypeFallback (s tag : JsString) (el : Element) : SelectorResult :=
  match el.parentElement with
  | none => .selector s
  | some .missing => .typeError
  | some (.items children) =>
    let siblings := children.filter fun ch => decide (ch.tagName = .text tag)
    if siblings.length > 1 then
      let idx := indexOfPlusOne siblings el.ref
      .selector (s ++ utf16 ":nth-of-type(" ++ decimal idx ++ utf16 ")")
    else .selector s

/-- The function `makeSel(el)` for an element `el` (the `!el` test is for a missing
element, which `querySelectorAll` never yields). `lower` is `String.prototype.toLowerCase`,
which folds every cased character of Unicode; on an ASCII string it is `toLowerCase`. A
`tagName` that is an object has no `toLowerCase` method, and the elements of a shadowing
`classList` have no `replace` method: both calls throw. -/
def makeSel (lower : JsString → JsString) (el : Element) : SelectorResult :=
  match el.tagName with
  | .missing => .null
  | .object _ => .typeError
  | .text tagName =>
    if tagName = [] then .null
    else
      let s := lower tagName
      match idText el.id with
      | some id => .selector (s ++ utf16 "#" ++ id)
      | none =>
        match el.classList with
        | .tokens classes =>
          if classes.length ≠ 0 then
            let cls := join (utf16 ".")
              ((classes.take 3).map fun c => c.filter fun u => !isWhiteSpace u)
            .selector (s ++ utf16 "." ++ cls)
          else nthOfTypeFallback s tagName el
        | .object (some length) =>
          if length ≠ 0 then .typeError else nthOfTypeFallback s tagName el
        | .object none => nthOfTypeFallback s tagName el
        | .missing => nthOfTypeFallback s tagName el

/-! ## Style snapshots: `styleSnapshotFor` (crawl_full.js, lines 163-205) -/

/-- The `computed` record of a snapshot (lines 178-198): the twenty computed style
properties that are read. A property is `none` when it is missing from the record. -/
structure Computed where
  color : Option JsString := none
  backgroundColor : Option JsString := none
  borderColor : Option JsString := none
  borderRadius : Option JsString := none
  boxShadow : Option JsString := none
  fontFamily : Option JsString := none
  fontSize : Option JsString := none
  fontWeight : Option JsString := none
  lineHeight : Option JsString := none
  padding : Option JsString := none
  margin : Option JsString := none
  display : Option JsString := none
  position : Option JsString := none
  top : Option JsString := none
  left : Option JsString := none
  transition : Option JsString := none
  transitionDuration : Option JsString := none
  animationName : Option JsString := none
  animationDuration : Option JsString := none
  cursor : Option JsString := none
deriving DecidableEq, Repr

/-- What the in-page function of `styleSnapshotFor` reads off the first element that
matches the selector (lines 172-200, without the `selector` field, which is the argument,
and without `rect`, which nothing reads afterwards). -/
structure ElementReading where
  tag : JsString
  classList : List JsString
  id : Option JsString
  text : JsString
  computed : Computed
deriving DecidableEq, Repr

/-- The three ways the style query of `styleSnapshotFor` can end: no element matches
(`page.$` or `document.querySelector` gives `null`), an element is read, or one of the two
awaited calls throws. -/
inductive QueryOutcome where
  | missing
  | found (reading : ElementReading)
  | threw (message : JsString)
deriving DecidableEq, Repr

/-- A non-null value returned by `styleSnapshotFor`: the full snapshot of lines 172-200,
or the record `{ selector, error }` of line 203. -/
inductive Snapshot where
  | full (selector : JsString) (reading : ElementReading)
  | error (selector : JsString) (error : JsString)
deriving DecidableEq, Repr

/-- The property `snapshot.classList`. -/
def Snapshot.classList : Snapshot → Option (List JsString)
  | .full _ r => some r.classList
  | .error _ _ => none

/-- The property `snapshot.computed`. -/
def Snapshot.computed : Snapshot → Option Computed
  | .full _ r => some r.computed
  | .error _ _ => none

/-- The property `snapshot.tag`. -/
def Snapshot.tag : Snapshot → Option JsString
  | .full _ r => some r.tag
  | .error _ _ => none

/-- The property `snapshot.text`. -/
def Snapshot.text : Snapshot → Option JsString
  | .full _ r => some r.text
  | .error _ _ => none

/-- The events sent with `page.dispatchEvent`. -/
inductive MouseEvent where
  | mousedown
  | mouseup
deriving DecidableEq, Repr

/-- The browser page, over an explicit page state `σ`. Each field is one call of the
automation engine that the probing loop awaits; it returns the page state after the call.
Failures of `hover`, `focus`, `click` and `dispatchEvent` are swallowed by the source
(`.catch(()=>{})`), so these only return a state. `goto` also says whether it succeeded
(`false`: it threw). -/
structure Page (σ : Type) where
  url : σ → JsString
  query : σ → JsString → σ × QueryOutcome
  hover : σ → JsString → σ
  focus : σ → JsString → σ
  click : σ → JsString → σ
  dispatchEvent : σ → JsString → MouseEvent → σ
  waitForTimeout : σ → Nat → σ
  goto : σ → JsString → σ × Bool

/-- The function `styleSnapshotFor(sel)`: `none` is `null`. -/
def styleSnapshotFor {σ : Type} (page : Page σ) (s : σ) (sel : JsString) :
    σ × Option Snapshot :=
  match page.query s sel with
  | (s1, .missing) => (s1, none)
  | (s1, .found r) => (s1, some (.full sel r))
  | (s1, .threw e) => (s1, some (.error sel e))

/-! ## Interaction probes: `computeBeforeAfter` (crawl_full.js, lines 220-253) -/

/-- The four interactions of `computeBeforeAfter`. -/
inductive Action where
  | hover
  | click
  | focus
  | mousedown
deriving DecidableEq, Repr

/-- The record returned by `computeBeforeAfter`. -/
structure BeforeAfter where
  selector : JsString
  before : Option Snapshot
  after : Option Snapshot
  classAdded : List JsString
  classRemoved : List JsString
deriving DecidableEq, Repr

/-- The interaction itself (lines 224-245). The click is raced against a 500 ms timer in
the source; here the click is one step of the page. -/
def performAction {σ : Type} (page : Page σ) (s : σ) (sel : JsString) : Action → σ
  | .hover => page.waitForTimeout (page.hover s sel) 150
  | .click => page.waitForTimeout (page.click s sel) 200
  | .focus => page.waitForTimeout (page.focus s sel) 100
  | .mousedown =>
    page.dispatchEvent (page.waitForTimeout (page.dispatchEvent s sel .mousedown) 100)
      sel .mouseup

/-- The expression `(snap && snap.classList) || []`. -/
def classesOf (snap : Option Snapshot) : List JsString :=
  match snap with
  | none => []
  | some v => (v.classList).getD []

/-- The function `computeBeforeAfter(sel, action)`. Its two snapshots come from
`styleSnapshotFor`, which catches every exception, and the interaction sits in a
`try`/`catch` of its own, so the function never throws: the `catch` clauses around its
calls on lines 266, 270 and 286 are never entered. -/
def computeBeforeAfter {σ : Type} (page : Page σ) (s : σ) (sel : JsString)
    (action : Action) : σ × BeforeAfter :=
  let (s1, before) := styleSnapshotFor page s sel
  let s2 := performAction page s1 sel action
  let (s3, after) := styleSnapshotFor page s2 sel
  let beforeClasses := classesOf before
  let afterClasses := classesOf after
  let added := afterClasses.filter fun c => !beforeClasses.contains c
  let removed := beforeClasses.filter fun c => !afterClasses.contains c
  (s3, { selector := sel, before := before, after := after,
         classAdded := added, classRemoved := removed })

/-! ## The probing loop (crawl_full.js, lines 208-215 and 256-308) -/

/-- The five selector lists returned by selector discovery. -/
structure Selectors where
  buttons : List JsString
  links : List JsString
  inputs : List JsString
  navs : List JsString
  cards : List JsString
deriving DecidableEq, Repr

/-- The array `inspectSelectors` (lines 209-215). -/
def inspectSelectors (selectors : Selectors) : List JsString :=
  selectors.navs.take 20 ++ selectors.buttons.take 200 ++ selectors.links.take 200 ++
    selectors.cards.take 200 ++ selectors.inputs.take 100

/-- One of the `hoverDiff`, `focusDiff`, `clickDiff`, `mousedownDiff` records of a
component entry. -/
structure Diff where
  classAdded : Option (List JsString)
  classRemoved : Option (List JsString)
  after : Option Computed
deriving DecidableEq, Repr

/-- A component entry of the report. The probing loop fills every property; a property
is `none` when its value is `undefined` or `null` (or, in a report read back from JSON,
when it is missing). -/
structure Component where
  selector : Option JsString := none
  tag : Option JsString := none
  textSample : Option JsString := none
  base : Option Computed := none
  transitions : Option JsString := none
  animation : Option JsString := none
  hoverDiff : Option Diff := none
  focusDiff : Option Diff := none
  clickDiff : Option Diff := none
  mousedownDiff : Option Diff := none
deriving DecidableEq, Repr

/-- The record built from a probe result on lines 298-301. The result is `none` when the
probe ended in the `{ error }` record of its `catch`, whose `classAdded` and
`classRemoved` are `undefined` and whose `after` is missing. -/
def diffOf (res : Option BeforeAfter) : Diff :=
  match res with
  | none => { classAdded := none, classRemoved := none, after := none }
  | some r =>
    { classAdded := some r.classAdded, classRemoved := some r.classRemoved,
      after := match r.after with
        | none => none
        | some v => v.computed }

/-- The page state in which the click probe starts: after the hover and focus probes
(lines 264-270). -/
def stateBeforeClick {σ : Type} (page : Page σ) (s : σ) (sel : JsString) : σ :=
  (computeBeforeAfter page (computeBeforeAfter page s sel .hover).1 sel .focus).1

/-- The click probe with its navigation recovery (lines 273-282), started in state `s`.
`beforeUrl` is read first; after the probe, a changed URL is answered with
`page.goto(beforeUrl)` and a 400 ms wait. When `goto` throws, the `catch` replaces the
result by the `{ error }` record (`none`). -/
def clickProbe {σ : Type} (page : Page σ) (s : σ) (sel : JsString) :
    σ × Option BeforeAfter :=
  let beforeUrl := page.url s
  let (s1, clickRes) := computeBeforeAfter page s sel .click
  if page.url s1 ≠ beforeUrl then
    match page.goto s1 beforeUrl with
    | (s2, true) => (page.waitForTimeout s2 400, some clickRes)
    | (s2, false) => (s2, none)
  else (s1, some clickRes)

/-- The expression `(base && base.computed && base.computed.P) || ""` of lines 289-290,
for the property read by `prop`. -/
def computedOrEmpty (base : Snapshot) (prop : Computed → Option JsString) : JsString :=
  match base.computed with
  | none => []
  | some c => (prop c).getD []

/-- The body of the loop for one selector (lines 257-305), started in page state `s`:
the page state afterwards, and the component entry that is pushed, if any. The test
`!base` is true for `null` only: the error record is an object. Nothing in the body throws
outside the inner `try` blocks, so the outer `catch` of line 303 is never entered. -/
def probeSelector {σ : Type} (page : Page σ) (s : σ) (sel : JsString) :
    σ × Option Component :=
  if sel = [] ∨ sel.length > 200 then (s, none)
  else
    match styleSnapshotFor page s sel with
    | (s0, none) => (s0, none)
    | (s0, some base) =>
      let (s1, hoverRes) := computeBeforeAfter page s0 sel .hover
      let (s2, focusRes) := computeBeforeAfter page s1 sel .focus
      let (s3, clickRes) := clickProbe page s2 sel
      let (s4, downRes) := computeBeforeAfter page s3 sel .mousedown
      (s4, some
        { selector := some sel
          tag := base.tag
          textSample := base.text
          base := base.computed
          transitions := some (computedOrEmpty base (·.transition))
          animation := some (computedOrEmpty base (·.animationName))
          hoverDiff := some (diffOf (some hoverRes))
          focusDiff := some (diffOf (some focusRes))
          clickDiff := some (diffOf clickRes)
          mousedownDiff := some (diffOf (some downRes)) })

/-- The loop over `inspectSelectors` (lines 256-306), started in page state `s` with the
component list `acc`: the final page state and component list. -/
def probeLoop {σ : Type} (page : Page σ) (s : σ) (acc : List Component) :
    List JsString → σ × List Component
  | [] => (s, acc)
  | sel :: rest =>
    match probeSelector page s sel with
    | (s1, none) => probeLoop page s1 acc rest
    | (s1, some c) => probeLoop page s1 (acc ++ [c]) rest

/-- The component list of a run: the loop over `inspectSelectors(selectors)` with
`componentList` empty at the start. -/
def componentList {σ : Type} (page : Page σ) (s : σ) (selectors : Selectors) :
    List Component :=
  (probeLoop page s [] (inspectSelectors selectors)).2

/-! ## The colour summary (crawl_full.js, lines 420-431) -/

/-- A value held by a property of `colorCounts`: a number or, once an inherited member
of `Object.prototype` has been read as the old value, a string. -/
inductive Count where
  | number (n : Nat)
  | text (s : JsString)
deriving DecidableEq, Repr

/-- The object `colorCounts`: its own properties, in the order they were created. -/
abbrev ColorCounts := List (JsString × Count)

/-- The methods that the empty object literal `{}` inherits from `Object.prototype`, each
with the string that the addition `method + 1` turns it into before `1` is appended (the
rendering of a built-in function by the runtime of Node). -/
def inheritedMethods : List (JsString × JsString) :=
  [ (utf16 "constructor", utf16 "function Object() \x7b [native code] \x7d"),
    (utf16 "__defineGetter__", utf16 "function __defineGetter__() \x7b [native code] \x7d"),
    (utf16 "__defineSetter__", utf16 "function __defineSetter__() \x7b [native code] \x7d"),
    (utf16 "hasOwnProperty", utf16 "function hasOwnProperty() \x7b [native code] \x7d"),
    (utf16 "__lookupGetter__", utf16 "function __lookupGetter__() \x7b [native code] \x7d"),
    (utf16 "__lookupSetter__", utf16 "function __lookupSetter__() \x7b [native code] \x7d"),
    (utf16 "isPrototypeOf", utf16 "function isPrototypeOf() \x7b [native code] \x7d"),
    (utf16 "propertyIsEnumerable",
      utf16 "function propertyIsEnumerable() \x7b [native code] \x7d"),
    (utf16 "toString", utf16 "function toString() \x7b [native code] \x7d"),
    (utf16 "valueOf", utf16 "function valueOf() \x7b [native code] \x7d"),
    (utf16 "toLocaleString", utf16 "function toLocaleString() \x7b [native code] \x7d") ]

/-- The key `__proto__`: reading it gives `Object.prototype` (truthy), and assigning a
string to it is ignored, so it never becomes an own property. -/
def protoKey : JsString := utf16 "__proto__"

/-- The names that `{}` inherits from `Object.prototype`. -/
def inheritedNames : List JsString :=
  protoKey :: inheritedMethods.map (·.1)

/-- Assignment to an own property that exists: the value changes, the position stays. -/
def setOwn (obj : ColorCounts) (key : JsString) (v : Count) : ColorCounts :=
  obj.map fun e => if e.1 = key then (e.1, v) else e

/-- The statement `colorCounts[key] = (colorCounts[key] || 0) + 1` (lines 426-427) for a
non-empty string `key`. An own property is read first, then `Object.prototype`; `+ 1`
adds one to a number and appends `1` to a string. -/
def increment (obj : ColorCounts) (key : JsString) : ColorCounts :=
  match obj.lookup key with
  | some (.number n) => setOwn obj key (.number (n + 1))
  | some (.text s) =>
    setOwn obj key (if s = [] then .number 1 else .text (s ++ utf16 "1"))
  | none =>
    if key = protoKey then obj
    else
      match inheritedMethods.lookup key with
      | some source => obj ++ [(key, .text (source ++ utf16 "1"))]
      | none => obj ++ [(key, .number 1)]

/-- The guarded statement `if (value) colorCounts[value] = ...`: a missing or empty value
is skipped. -/
def tallyValue (obj : ColorCounts) (value : Option JsString) : ColorCounts :=
  match value with
  | none => obj
  | some v => if v = [] then obj else increment obj v

/-- The body of the tally loop for one component (lines 424-427). -/
def tallyComponent (obj : ColorCounts) (comp : Component) : ColorCounts :=
  let color := comp.base.bind (·.color)
  let bg := comp.base.bind (·.backgroundColor)
  tallyValue (tallyValue obj color) bg

/-- The object `colorCounts` after the loop of lines 422-429. -/
def colorCounts (comps : List Component) : ColorCounts :=
  comps.foldl tallyComponent []

/-- The value of a run of decimal digits. -/
def digitsValue (key : JsString) : Nat :=
  key.foldl (fun acc u => 10 * acc + (u - 48)) 0

/-- The array index that a property key stands for, if any: the key is the canonical
decimal rendering of an integer below `2^32 - 1`. -/
def arrayIndex? (key : JsString) : Option Nat :=
  if key ≠ [] ∧ key.all (fun u => decide (48 ≤ u) && decide (u ≤ 57)) = true
      ∧ (key.head? ≠ some 48 ∨ key.length = 1) ∧ digitsValue key < 4294967295 then
    some (digitsValue key)
  else none

/-- The call `Object.entries(obj)`: the properties whose key is an array index come first,
in ascending order of the index, and the others follow in the order they were created. -/
def objectEntries (obj : ColorCounts) : List (JsString × Count) :=
  (obj.filter fun e => (arrayIndex? e.1).isSome).insertionSort
      (fun a b => (arrayIndex? a.1).getD 0 ≤ (arrayIndex? b.1).getD 0)
    ++ obj.filter fun e => !(arrayIndex? e.1).isSome

/-- The counts of the entries as numbers, when every count is a number; `none` when a
count is a string. -/
def numericEntries? : List (JsString × Count) → Option (List (JsString × Nat))
  | [] => some []
  | (k, .number n) :: rest => (numericEntries? rest).map fun nums => (k, n) :: nums
  | (_, .text _) :: _ => none

/-- The call `entries.sort((a,b) => b[1] - a[1])` for entries whose counts are numbers.
The comparator is a consistent one then, so the result is the stable sort, written here
as an insertion sort: `a` may stay in front of `b` when `b[1] - a[1]` is not positive. -/
def sortByCount (entries : List (JsString × Nat)) : List (JsString × Nat) :=
  entries.insertionSort fun a b => b.2 ≤ a.2

/-- The sorted entries when every count is a number. When a count is a string the
comparator yields `NaN`, it is no consistent comparator, and ECMAScript leaves the order of
the result to the implementation: `none`. -/
def sortedEntries? (entries : List (JsString × Count)) : Option (List (JsString × Count)) :=
  (numericEntries? entries).map fun nums =>
    (sortByCount nums).map fun e => (e.1, Count.number e.2)

/-- The arrays that `entries.sort((a,b) => b[1] - a[1])` may leave: always a rearrangement
of the entries, and the stable sort when that is determined. -/
def SortResult (entries result : List (JsString × Count)) : Prop :=
  result.Perm entries ∧ ∀ sorted, sortedEntries? entries = some sorted → result = sorted

/-- An entry of `report.palette.topColors`. -/
structure TopColor where
  color : JsString
  count : Count
deriving DecidableEq, Repr

/-- The array `sortedColors` (line 430) when every count is a number; `none` when a count
is a string and the order is left to the implementation. -/
def sortedColors (comps : List Component) : Option (List TopColor) :=
  (sortedEntries? (objectEntries (colorCounts comps))).map fun sorted =>
    sorted.map fun e => { color := e.1, count := e.2 }

/-- The array `report.palette.topColors` (line 431) when `sortedColors` is determined. -/
def topColors (comps : List Component) : Option (List TopColor) :=
  (sortedColors comps).map fun sorted => sorted.take 30

/-- The arrays that `sortedColors` (line 430) may be: the entries of `colorCounts` as the
sort may leave them. -/
def SortedColors (comps : List Component) (sorted : List TopColor) : Prop :=
  SortResult (objectEntries (colorCounts comps)) (sorted.map fun t => (t.color, t.count))

/-! ## The spec extractor (scripts/extract_spec.js, lines 34-58) -/

/-- The character class `[a-z0-9\-_]` under the `i` flag: ASCII letters of both cases,
digits, hyphen and underscore. -/
def isNameUnit (u : Nat) : Bool :=
  (decide (97 ≤ u) && decide (u ≤ 122)) || (decide (65 ≤ u) && decide (u ≤ 90)) ||
  (decide (48 ≤ u) && decide (u ≤ 57)) || u = 45 || u = 95

/-- The call `sel.replace(/[^a-z0-9\-_]+/ig, '-')`: each maximal run of code units outside
the class becomes one hyphen. The flag says whether the previous code unit was part of
such a run. -/
def replaceOtherRuns : Bool → JsString → JsString
  | _, [] => []
  | inRun, u :: rest =>
    if isNameUnit u then u :: replaceOtherRuns false rest
    else if inRun then replaceOtherRuns true rest
    else 45 :: replaceOtherRuns true rest

/-- The call `.replace(/^-+|-+$/g, '')`: the leading and the trailing hyphens go. -/
def stripHyphens (s : JsString) : JsString :=
  ((s.dropWhile (· == 45)).reverse.dropWhile (· == 45)).reverse

/-- The sanitised selector of line 36, before the fallback: both replacements and
`.slice(0, 60)`. -/
def sanitise (sel : JsString) : JsString :=
  (stripHyphens (replaceOtherRuns false sel)).take 60

/-- The function `safeName(sel, i)`; `sel` is `none` for a missing selector. -/
def safeName (sel : Option JsString) (i : Nat) : JsString :=
  match sel with
  | none => utf16 "component-" ++ decimal i
  | some sel =>
    if sel = [] then utf16 "component-" ++ decimal i
    else
      let s := if sanitise sel = [] then utf16 "comp-" ++ decimal i else sanitise sel
      toLowerCase s

/-- The call `.replace(/\s+/g, ' ')`: each maximal run of white space becomes one space.
The flag says whether the previous code unit was white space. -/
def collapseWhiteSpace : Bool → JsString → JsString
  | _, [] => []
  | inRun, u :: rest =>
    if isWhiteSpace u then
      if inRun then collapseWhiteSpace true rest else 32 :: collapseWhiteSpace true rest
    else u :: collapseWhiteSpace false rest

/-- The method `String.prototype.trim`. -/
def trim (s : JsString) : JsString :=
  ((s.dropWhile isWhiteSpace).reverse.dropWhile isWhiteSpace).reverse

/-- The `sampleText` expression of line 48. -/
def sampleText (textSample : Option JsString) : JsString :=
  (trim (collapseWhiteSpace false (textSample.getD []))).take 200

/-- The constant `MAX`: how many components are exported. -/
def MAX : Nat := 60

/-- An entry of `components.json`. -/
structure ExportedComponent where
  id : Nat
  name : JsString
  selector : Option JsString
  tag : Option JsString
  sampleText : JsString
  base : Computed
  hoverAfter : Option Computed
  focusAfter : Option Computed
  clickAdded : List JsString
  clickAfter : Option Computed
  transitions : JsString
  animation : JsString
  priority : JsString
deriving DecidableEq, Repr

/-- The name expression of line 45, for the component at 0-based position `i`. -/
def nameOf (selector : Option JsString) (i : Nat) : JsString :=
  match selector with
  | none => utf16 "component-" ++ decimal (i + 1)
  | some sel =>
    if sel = [] then utf16 "component-" ++ decimal (i + 1) else safeName (some sel) (i + 1)

/-- The priority expression of line 56. -/
def priorityOf (i : Nat) : JsString :=
  if i < 10 then utf16 "high" else if i < 30 then utf16 "medium" else utf16 "low"

/-- The callback of `map` on lines 42-58, for the component `c` at 0-based position
`i`. -/
def exportComponent (i : Nat) (c : Component) : ExportedComponent :=
  { id := i + 1
    name := nameOf c.selector i
    selector := c.selector
    tag := c.tag
    sampleText := sampleText c.textSample
    base := c.base.getD {}
    hoverAfter := c.hoverDiff.bind (·.after)
    focusAfter := c.focusDiff.bind (·.after)
    clickAdded := (c.clickDiff.bind (·.classAdded)).getD []
    clickAfter := c.clickDiff.bind (·.after)
    transitions := c.transitions.getD []
    animation := c.animation.getD []
    priority := priorityOf i }

/-- The array `comps` (lines 40-58); `components` is `raw.components`, `none` when the
report has no such property. -/
def comps (components : Option (List Component)) : List ExportedComponent :=
  ((components.getD []).take MAX).mapIdx exportComponent

/-! ## Concrete inputs -/

/-- An element reading with the given class list and an empty computed style. -/
def plainReading (classes : List JsString) : ElementReading :=
  { tag := utf16 "A", classList := classes, id := none, text := utf16 "Shop", computed := {} }

/-- A page on which every style query throws (as `page.$` does for a selector that is
not valid CSS) and nothing else happens. -/
def throwingPage : Page Unit :=
  { url := fun _ => utf16 "https://shop.test/"
    query := fun s _ => (s, .threw (utf16 "Error: not a valid selector"))
    hover := fun s _ => s
    focus := fun s _ => s
    click := fun s _ => s
    dispatchEvent := fun s _ _ => s
    waitForTimeout := fun s _ => s
    goto := fun s _ => (s, true) }

/-- Selector discovery that found one card whose class is `w-1/2`. -/
def halfWidthCard : Selectors :=
  { buttons := [], links := [], inputs := [], navs := [], cards := [utf16 "div.w-1/2"] }

/-- An element with an id, classes and same-tag siblings. -/
def elementWithId : Element :=
  { ref := 7, tagName := .text (utf16 "DIV"), id := .text (utf16 "main"),
    classList := .tokens [utf16 "hero"],
    parentElement := some (.items [⟨6, .text (utf16 "DIV")⟩, ⟨7, .text (utf16 "DIV")⟩]) }

/-- The children of a list: two items, a paragraph between them. -/
def listChildren : List Sibling :=
  [⟨5, .text (utf16 "LI")⟩, ⟨6, .text (utf16 "P")⟩, ⟨7, .text (utf16 "LI")⟩]

/-- The second list item of `listChildren`: no id and no class. -/
def secondItem : Element :=
  { ref := 7, tagName := .text (utf16 "LI"), id := .text [], classList := .tokens [],
    parentElement := some (.items listChildren) }

/-- The element `<form id="edit" class="product">` that holds the control
`<input type="hidden" name="id" value="42">`: reading `id` on the form gives the control,
not the id attribute `edit`. Its parent is a `div` with this one child. -/
def formWithIdControl : Element :=
  { ref := 3, tagName := .text (utf16 "FORM"),
    id := .object (utf16 "[object HTMLInputElement]"),
    classList := .tokens [utf16 "product"],
    parentElement := some (.items [⟨3, .text (utf16 "FORM")⟩]) }

/-- The second of two `<form role="button">` children of a `div`, with no id attribute and
no class; it holds the control `<input name="id">`, which reading `id` on the form gives. -/
def plainFormWithIdControl : Element :=
  { ref := 9, tagName := .text (utf16 "FORM"),
    id := .object (utf16 "[object HTMLInputElement]"), classList := .tokens [],
    parentElement := some (.items [⟨8, .text (utf16 "FORM")⟩, ⟨9, .text (utf16 "FORM")⟩]) }

/-- The second link of `<form><input name="children"><a>one</a><a>two</a></form>`: no id
and no class, and two `a` children in the parent. Reading `children` on the form gives the
control named `children`, from which `Array.from` makes an empty array. -/
def linkInBookingForm : Element :=
  { ref := 12, tagName := .text (utf16 "A"), id := .text [], classList := .tokens [],
    parentElement := some (.items []) }

/-- The number of components whose base `color` is `c` plus the number of components whose
base `backgroundColor` is `c`; an empty value is never counted. -/
def occurrences (comps : List Component) (c : JsString) : Nat :=
  if c = [] then 0
  else comps.countP (fun p => decide (p.base.bind (·.color) = some c))
    + comps.countP (fun p => decide (p.base.bind (·.backgroundColor) = some c))

/-- The own property `c` of `obj` holds the number `n`, or is absent when `n` is zero. -/
def Tallied (obj : ColorCounts) (c : JsString) (n : Nat) : Prop :=
  List.lookup c obj = if n = 0 then none else some (.number n)

/-- Every own property of `obj` holds a number. -/
def AllNumbers (obj : ColorCounts) : Prop :=
  ∀ e ∈ obj, ∃ n, e.2 = Count.number n

/-- Both counts are numbers and the first is not below the second. -/
def Count.notBelow : Count → Count → Bool
  | .number m, .number n => decide (n ≤ m)
  | _, _ => false

/-- A component with the given base `color` and `backgroundColor`. -/
def coloured (color backgroundColor : String) : Component :=
  { selector := some (utf16 "a.nav")
    base := some { color := some (utf16 color), backgroundColor := some (utf16 backgroundColor) } }

/-- The two identical components of the tally scenario. -/
def navPair : List Component :=
  [coloured "rgb(0,0,0)" "rgb(255,255,255)", coloured "rgb(0,0,0)" "rgb(255,255,255)"]

/-- A component list in which one colour value is the string `constructor`. -/
def constructorColoured : List Component :=
  [coloured "rgb(0, 0, 0)" "constructor", coloured "rgb(255, 255, 255)" "rgb(255, 255, 255)"]

/-- A component list with three colours of different frequency. -/
def threeColours : List Component :=
  [coloured "red" "white", coloured "blue" "white", coloured "blue" "white"]

/-- A code unit that may occur in a synthesized name: a lower-case ASCII letter, a digit,
a hyphen or an underscore. -/
def isLowerNameUnit (u : Nat) : Bool :=
  (decide (97 ≤ u) && decide (u ≤ 122)) || (decide (48 ≤ u) && decide (u ≤ 57)) ||
  u = 45 || u = 95

/-- A report with `n` components, the one at 0-based position `j` with selector `c<j>`. -/
def numberedComponents (n : Nat) : List Component :=
  (List.range n).map fun j => { selector := some (utf16 "c" ++ decimal j) }

/-- A component whose selector is the universal selector `*`. -/
def starComponent : Component :=
  { selector := some (utf16 "*") }

/-- A page whose state is its URL. A click on any element navigates to the cart page,
`goto` loads the requested URL, and nothing else changes the URL. -/
def linkPage : Page JsString :=
  { url := fun s => s
    query := fun s _ => (s, .found (plainReading []))
    hover := fun s _ => s
    focus := fun s _ => s
    click := fun _ _ => utf16 "https://shop.test/cart"
    dispatchEvent := fun s _ _ => s
    waitForTimeout := fun s _ => s
    goto := fun _ u => (u, true) }

/-- The page `linkPage` with a `mousedown` handler that navigates to the menu page. -/
def mousedownPage : Page JsString :=
  { linkPage with
    dispatchEvent := fun s _ ev =>
      match ev with
      | .mousedown => utf16 "https://shop.test/menu"
      | .mouseup => s }

/-- The page `linkPage` on which the reload fails: `goto` throws and the page stays where
it is. -/
def gotoFailsPage : Page JsString :=
  { linkPage with goto := fun s _ => (s, false) }

/-- The page state right after the click probe, before the URL is compared (line 278). -/
def stateAfterClick {σ : Type} (page : Page σ) (s0 : σ) (sel : JsString) : σ :=
  (computeBeforeAfter page (stateBeforeClick page s0 sel) sel .click).1

/-- The page state in which the mousedown probe starts: after the click probe and its
navigation recovery (line 282). -/
def stateBeforeMousedown {σ : Type} (page : Page σ) (s0 : σ) (sel : JsString) : σ :=
  (clickProbe page (stateBeforeClick page s0 sel) sel).1

/-- The class list of the element when a style query ends in `outcome`: the empty list
when no element matches or the query throws. -/
def outcomeClasses : QueryOutcome → List JsString
  | .found reading => reading.classList
  | .missing => []
  | .threw _ => []

/-- The class list that the page reports for `sel` in state `s`, when `computeBeforeAfter`
is entered. -/
def classesBefore {σ : Type} (page : Page σ) (s : σ) (sel : JsString) : List JsString :=
  outcomeClasses (page.query s sel).2

/-- The class list that the page reports for `sel` after the interaction `action` has been
performed in the state that the first query left. -/
def classesAfter {σ : Type} (page : Page σ) (s : σ) (sel : JsString) (action : Action) :
    List JsString :=
  outcomeClasses (page.query (performAction page (page.query s sel).1 sel action) sel).2

/-- The URL the example pages start on. -/
def homeUrl : JsString := utf16 "https://shop.test/"

/-- The class list that a snapshot counts for when classes are compared: the class list of
a full snapshot, and the empty list for a missing snapshot and for an error record. -/
def classListOrEmpty : Option Snapshot → List JsString
  | some (.full _ r) => r.classList
  | some (.error _ _) => []
  | none => []

/-- The wording of the sample text rule, first step: each maximal run of white space is
replaced by one space. A white space code unit that is followed by another one is dropped,
and the last one of its run becomes the space. -/
def replaceWhiteSpaceRuns : JsString → JsString
  | [] => []
  | [u] => if isWhiteSpace u then [32] else [u]
  | u :: v :: rest =>
    if isWhiteSpace u then
      if isWhiteSpace v then replaceWhiteSpaceRuns (v :: rest)
      else 32 :: replaceWhiteSpaceRuns (v :: rest)
    else u :: replaceWhiteSpaceRuns (v :: rest)

/-- The wording of the sample text rule: the text sample with each white space run
replaced by one space, trimmed, and cut to its first 200 code units; the empty string when
the text sample is missing. -/
def sampleTextSpec (textSample : Option JsString) : JsString :=
  match textSample with
  | none => []
  | some t =>
    (((replaceWhiteSpaceRuns t).dropWhile isWhiteSpace).rdropWhile isWhiteSpace).take 200

/-- A page whose element gains the class `open` when it is clicked: the state is the class
list of the element. -/
def togglePage : Page (List JsString) :=
  { url := fun _ => utf16 "https://shop.test/"
    query := fun s _ => (s, .found (plainReading s))
    hover := fun s _ => s
    focus := fun s _ => s
    click := fun s _ => s.filter (fun c => decide (c ≠ utf16 "closed")) ++ [utf16 "open"]
    dispatchEvent := fun s _ _ => s
    waitForTimeout := fun s _ => s
    goto := fun s _ => (s, true) }

/-- The colour values in the order in which the tally loop reads them: the components in
list order, each component's base `color` before its base `backgroundColor`, missing and
empty values left out. -/
def scanned (comps : List Component) : List JsString :=
  comps.flatMap fun comp =>
    ((comp.base.bind (·.color)).toList ++ (comp.base.bind (·.backgroundColor)).toList).filter
      fun v => decide (v ≠ [])

/-- The position of the first occurrence of `c` in `l`, and the length of `l` when `c` does
not occur in it. -/
def firstIndex (c : JsString) : List JsString → Nat
  | [] => 0
  | x :: rest => if x = c then 0 else firstIndex c rest + 1

/-- The keys of an object after the assignment to the key `k` on lines 426-427: a key that
is new and is not `__proto__` goes to the end. -/
def noteKey (keys : List JsString) (k : JsString) : List JsString :=
  if k ∈ keys ∨ k = protoKey then keys else keys ++ [k]

/-- Two colours that are tallied once each, `red` before `blue`, and one tallied twice. -/
def tiedColours : List Component :=
  [coloured "red" "white", coloured "blue" "white"]

/-- One component whose colour values are the strings `2` and `1`, in this order. -/
def digitColours : List Component :=
  [coloured "2" "1"]

/-! ## Theorems -/

/-! ### The probing loop pushes at most one component per selector -/

theorem probeLoop_length_le {σ : Type} (page : Page σ) (sels : List JsString) :
    ∀ (s : σ) (acc : List Component),
      (probeLoop page s acc sels).2.length ≤ acc.length + sels.length := by
  induction sels with
  | nil => intro s acc; simp [probeLoop]
  | cons sel rest ih =>
    intro s acc
    rw [probeLoop]
    split
    · next s1 _ =>
      have h := ih s1 acc
      simp only [List.length_cons]
      omega
    · next s1 c _ =>
      have h := ih s1 (acc ++ [c])
      simp only [List.length_append, List.length_singleton, List.length_cons,
        List.length_nil] at h ⊢
      omega

theorem inspectSelectors_length_le (selectors : Selectors) :
    (inspectSelectors selectors).length ≤ 720 := by
  simp only [inspectSelectors, List.length_append, List.length_take]
  omega

/-- C1: whatever selector discovery returned and whatever the page does during the probes,
the component list produced by the probing loop has at most 20+200+200+200+100 = 720
entries. -/
theorem componentList_length_le {σ : Type} (page : Page σ) (s : σ) (selectors : Selectors) :
    (componentList page s selectors).length ≤ 20 + 200 + 200 + 200 + 100 := by
  have h1 := probeLoop_length_le page (inspectSelectors selectors) s []
  have h2 := inspectSelectors_length_le selectors
  simp only [componentList, List.length_nil] at h1 ⊢
  omega

/-! ### The base snapshot of a pushed component -/

/-- C2 (the code at the failing input): when the style query throws for the selector
`div.w-1/2`, `styleSnapshotFor` returns the error record, the `!base` test lets it pass, and
the loop pushes a component for the selector whose `base`, `tag` and `textSample` are all
undefined. -/
theorem componentList_pushes_undefined_base :
    (componentList throwingPage () halfWidthCard).map
        (fun c => (c.selector, c.base, c.tag, c.textSample))
      = [(some (utf16 "div.w-1/2"), none, none, none)] := by
  decide

/-! ### Selectors derived by `makeSel` -/

/-- For an element whose `tagName` and `id` both read as non-empty strings, whatever its
class list, parent and siblings, `makeSel` returns the lower-cased tag name, then `#`, then
the id. -/
theorem makeSel_of_id (lower : JsString → JsString) (el : Element) (tagName id : JsString)
    (hTag : el.tagName = .text tagName) (hName : tagName ≠ [])
    (hId : el.id = .text id) (hIdName : id ≠ []) :
    makeSel lower el = .selector (lower tagName ++ utf16 "#" ++ id) := by
  simp [makeSel, idText, hTag, hName, hId, hIdName]

theorem makeSel_of_id_witness :
    makeSel toLowerCase elementWithId = .selector (utf16 "div#main") :=
  makeSel_of_id toLowerCase elementWithId (utf16 "DIV") (utf16 "main") rfl (by decide) rfl
    (by decide)

/-- C3 (the code at the failing input): the form `formWithIdControl` has the id attribute
`edit`, but reading `el.id` gives its control named `id`, which is truthy and is inserted
as `[object HTMLInputElement]`: the selector is not `form#edit`. -/
theorem makeSel_id_shadowed :
    makeSel toLowerCase formWithIdControl
        = .selector (utf16 "form#[object HTMLInputElement]")
      ∧ makeSel toLowerCase formWithIdControl ≠ .selector (utf16 "form#edit") := by
  decide

theorem findIdx?_filter_ref (tagName : JsString) (r : Nat) :
    ∀ (children : List Sibling) (pos : Nat),
      children.get? pos = some ⟨r, .text tagName⟩ →
      (children.map (·.ref)).Nodup →
      (children.filter fun ch => decide (ch.tagName = .text tagName)).findIdx?
          (fun ch => ch.ref == r)
        = some ((children.take pos).filter
            fun ch => decide (ch.tagName = .text tagName)).length := by
  intro children
  induction children with
  | nil => intro pos h; simp at h
  | cons ch rest ih =>
    intro pos h hnd
    rw [List.map_cons, List.nodup_cons] at hnd
    cases pos with
    | zero =>
      simp only [List.get?_cons_zero, Option.some.injEq] at h
      subst h
      simp [List.filter_cons, List.findIdx?_cons]
    | succ p =>
      simp only [List.get?_cons_succ] at h
      have hmem : r ∈ rest.map (·.ref) := by
        have := List.get?_mem h
        exact List.mem_map.mpr ⟨_, this, rfl⟩
      have hne : ch.ref ≠ r := fun e => hnd.1 (e ▸ hmem)
      have ih1 := ih p h hnd.2
      by_cases ht : ch.tagName = .text tagName
      · simp [List.filter_cons, ht, List.findIdx?_cons, hne, List.findIdx?_succ, ih1]
      · simp [List.filter_cons, ht, ih1]

/-- For an element whose `id` reads as the empty string and whose class list is empty,
that is the child at position `pos` of a parent whose `children` reads as a collection of
distinct elements, more than one of which has the element's tag name, `makeSel` returns the
lower-cased tag name followed by `:nth-of-type(k)`, where `k` is one more than the number
of children of that tag before position `pos`. -/
theorem makeSel_nth_of_type (lower : JsString → JsString) (el : Element)
    (tagName : JsString) (children : List Sibling) (pos : Nat)
    (hTag : el.tagName = .text tagName) (hName : tagName ≠ [])
    (hId : el.id = .text []) (hClass : el.classList = .tokens [])
    (hParent : el.parentElement = some (.items children))
    (hPos : children.get? pos = some ⟨el.ref, .text tagName⟩)
    (hDistinct : (children.map (·.ref)).Nodup)
    (hMany : 1 < (children.filter fun ch => decide (ch.tagName = .text tagName)).length) :
    makeSel lower el = .selector (lower tagName ++ utf16 ":nth-of-type(" ++
      decimal (((children.take pos).filter
        fun ch => decide (ch.tagName = .text tagName)).length + 1)
      ++ utf16 ")") := by
  have hidx := findIdx?_filter_ref tagName el.ref children pos hPos hDistinct
  simp only [makeSel, idText, nthOfTypeFallback, hTag, hName, hId, hClass, hParent,
    indexOfPlusOne, hidx]
  simp [hMany]

theorem makeSel_nth_of_type_witness :
    makeSel toLowerCase secondItem = .selector (utf16 "li:nth-of-type(2)") :=
  makeSel_nth_of_type toLowerCase secondItem (utf16 "LI") listChildren 2 rfl (by decide) rfl
    rfl rfl (by decide) (by decide) (by decide)

/-- C4 (the code at the failing input): `linkInBookingForm` is the second of two `a`
children of its parent and has no id and no class, but the parent is a form whose control
named `children` shadows the child collection, so no sibling is found and the selector is
the bare tag name, not `a:nth-of-type(2)`. Likewise `plainFormWithIdControl`, the second of
two forms without id attribute and class, gets its control named `id` after `#` and no
`:nth-of-type(2)`. -/
theorem makeSel_children_shadowed :
    makeSel toLowerCase linkInBookingForm = .selector (utf16 "a")
      ∧ makeSel toLowerCase linkInBookingForm ≠ .selector (utf16 "a:nth-of-type(2)")
      ∧ makeSel toLowerCase plainFormWithIdControl
        = .selector (utf16 "form#[object HTMLInputElement]")
      ∧ makeSel toLowerCase plainFormWithIdControl
        ≠ .selector (utf16 "form:nth-of-type(2)") := by
  decide

/-! ### The colour tally -/

theorem lookup_cons_eq (k c : JsString) (v : Count) (obj : ColorCounts) :
    List.lookup c ((k, v) :: obj) = if c = k then some v else List.lookup c obj := by
  by_cases h : c = k
  · subst h; simp
  · have hb : (c == k) = false := by simpa using h
    simp [List.lookup_cons, hb, h]

theorem lookup_setOwn (k c : JsString) (v : Count) (obj : ColorCounts) :
    List.lookup c (setOwn obj k v)
      = if c = k then (List.lookup c obj).map (fun _ => v) else List.lookup c obj := by
  induction obj with
  | nil => simp [setOwn]
  | cons e rest ih =>
    obtain ⟨k1, v1⟩ := e
    have step : setOwn ((k1, v1) :: rest) k v
        = (if k1 = k then (k1, v) else (k1, v1)) :: setOwn rest k v := by
      simp [setOwn]
    rw [step]
    by_cases h1 : k1 = k
    · subst h1
      by_cases h2 : c = k1
      · subst h2
        simp [lookup_cons_eq]
      · simp [lookup_cons_eq, h2, ih]
    · by_cases h2 : c = k
      · subst h2
        have h3 : c ≠ k1 := fun e => h1 e.symm
        simp [lookup_cons_eq, h1, h3, ih]
      · by_cases h3 : c = k1
        · subst h3
          simp [lookup_cons_eq, h1, h2]
        · simp [lookup_cons_eq, h1, h2, h3, ih]

theorem lookup_append_single (k c : JsString) (v : Count) (obj : ColorCounts) :
    List.lookup c (obj ++ [(k, v)])
      = (List.lookup c obj).or (if c = k then some v else none) := by
  rw [List.lookup_append, lookup_cons_eq, List.lookup_nil]

theorem inheritedMethods_lookup_none (c : JsString)
    (hc : c ∉ inheritedMethods.map (·.1)) : List.lookup c inheritedMethods = none := by
  rw [List.lookup_eq_none_iff]
  intro p hp
  have : c ≠ p.1 := fun e => hc (List.mem_map.mpr ⟨p, hp, e.symm⟩)
  simpa using this

theorem lookup_increment_of_ne (obj : ColorCounts) (k c : JsString) (h : c ≠ k) :
    List.lookup c (increment obj k) = List.lookup c obj := by
  unfold increment
  split
  · rw [lookup_setOwn]; simp [h]
  · rw [lookup_setOwn]; simp [h]
  · split
    · rfl
    · split <;> · rw [lookup_append_single]; simp [h]

theorem tallied_increment_self {obj : ColorCounts} {c : JsString} {n : Nat}
    (h : Tallied obj c n) (hc : c ∉ inheritedNames) : Tallied (increment obj c) c (n + 1) := by
  have hproto : c ≠ protoKey := fun e => hc (e ▸ List.mem_cons_self _ _)
  have hmeth : c ∉ inheritedMethods.map (·.1) := fun hm => hc (List.mem_cons_of_mem _ hm)
  unfold Tallied at h ⊢
  unfold increment
  by_cases hn : n = 0
  · subst hn
    simp only [if_true] at h
    rw [h]
    simp only [hproto, if_false, inheritedMethods_lookup_none c hmeth]
    rw [lookup_append_single, h]
    simp
  · simp only [hn, if_false] at h
    rw [h]
    simp only
    rw [lookup_setOwn, h]
    simp

theorem tallied_increment {obj : ColorCounts} {c : JsString} {n : Nat}
    (h : Tallied obj c n) (hc : c ∉ inheritedNames) (k : JsString) :
    Tallied (increment obj k) c (n + if k = c then 1 else 0) := by
  by_cases hk : k = c
  · subst hk
    simpa using tallied_increment_self h hc
  · have hck : c ≠ k := fun e => hk e.symm
    simp only [hk, if_false, Nat.add_zero]
    unfold Tallied at h ⊢
    rw [lookup_increment_of_ne obj k c hck]
    exact h

theorem tallied_tallyValue {obj : ColorCounts} {c : JsString} {n : Nat}
    (h : Tallied obj c n) (hc : c ∉ inheritedNames) (value : Option JsString) :
    Tallied (tallyValue obj value) c (n + if c ≠ [] ∧ value = some c then 1 else 0) := by
  unfold SiteAnalyzer.tallyValue
  cases value with
  | none => simpa using h
  | some v =>
    by_cases hv : v = []
    · subst hv
      have : ¬ (c ≠ [] ∧ some ([] : JsString) = some c) := by
        rintro ⟨h1, h2⟩
        exact h1 (Option.some.inj h2).symm
      simpa [this] using h
    · have h1 := tallied_increment h hc v
      by_cases hvc : v = c
      · subst hvc
        simpa [hv] using h1
      · have : ¬ (c ≠ [] ∧ some v = some c) := fun ⟨_, h2⟩ => hvc (Option.some.inj h2)
        simpa [hv, hvc, this] using h1

theorem occurrences_cons (comp : Component) (rest : List Component) (c : JsString) :
    occurrences (comp :: rest) c
      = (if c ≠ [] ∧ comp.base.bind (·.color) = some c then 1 else 0)
        + (if c ≠ [] ∧ comp.base.bind (·.backgroundColor) = some c then 1 else 0)
        + occurrences rest c := by
  unfold occurrences
  by_cases hc : c = []
  · simp [hc]
  · simp only [hc, if_false, List.countP_cons, ne_eq, not_false_eq_true, true_and,
      decide_eq_true_eq]
    omega

theorem tallied_foldl {c : JsString} (hc : c ∉ inheritedNames) (comps : List Component) :
    ∀ (obj : ColorCounts) (n : Nat), Tallied obj c n →
      Tallied (comps.foldl tallyComponent obj) c (n + occurrences comps c) := by
  induction comps with
  | nil =>
    intro obj n h
    have : occurrences [] c = 0 := by unfold occurrences; split <;> simp
    simpa [this] using h
  | cons comp rest ih =>
    intro obj n h
    have h1 := tallied_tallyValue (tallied_tallyValue h hc (comp.base.bind (·.color))) hc
      (comp.base.bind (·.backgroundColor))
    have h2 := ih _ _ h1
    rw [List.foldl_cons]
    rw [occurrences_cons]
    have e : n + ((if c ≠ [] ∧ comp.base.bind (·.color) = some c then 1 else 0)
        + (if c ≠ [] ∧ comp.base.bind (·.backgroundColor) = some c then 1 else 0)
        + occurrences rest c)
        = n + (if c ≠ [] ∧ comp.base.bind (·.color) = some c then 1 else 0)
          + (if c ≠ [] ∧ comp.base.bind (·.backgroundColor) = some c then 1 else 0)
          + occurrences rest c := by omega
    rw [e]
    exact h2

theorem keys_setOwn (obj : ColorCounts) (k : JsString) (v : Count) :
    (setOwn obj k v).map (·.1) = obj.map (·.1) := by
  unfold setOwn
  rw [List.map_map]
  apply List.map_congr_left
  intro e _
  by_cases h : e.1 = k <;> simp [h]

theorem keys_nodup_increment (obj : ColorCounts) (k : JsString)
    (h : (obj.map (·.1)).Nodup) : ((increment obj k).map (·.1)).Nodup := by
  unfold increment
  split
  · rw [keys_setOwn]; exact h
  · rw [keys_setOwn]; exact h
  · next hnone =>
    have hk : k ∉ obj.map (·.1) := by
      intro hm
      obtain ⟨p, hp, e⟩ := List.mem_map.mp hm
      have := List.lookup_eq_none_iff.mp hnone p hp
      simp [e] at this
    have happ : ∀ v : Count, ((obj ++ [(k, v)]).map (·.1)).Nodup := by
      intro v
      rw [List.map_append, List.map_singleton]
      exact List.Nodup.append h (List.nodup_singleton _) (by simpa using hk)
    split
    · exact h
    · split
      · exact happ _
      · exact happ _

theorem keys_nodup_colorCounts (comps : List Component) :
    ((colorCounts comps).map (·.1)).Nodup := by
  have key : ∀ (l : List Component) (obj : ColorCounts),
      (obj.map (·.1)).Nodup → ((l.foldl tallyComponent obj).map (·.1)).Nodup := by
    intro l
    induction l with
    | nil => intro obj h; exact h
    | cons comp rest ih =>
      intro obj h
      rw [List.foldl_cons]
      apply ih
      have step : ∀ (o : ColorCounts) (value : Option JsString),
          (o.map (·.1)).Nodup → ((tallyValue o value).map (·.1)).Nodup := by
        intro o value ho
        unfold tallyValue
        cases value with
        | none => exact ho
        | some v =>
          by_cases hv : v = []
          · simpa [hv] using ho
          · simp only [hv, if_false]
            exact keys_nodup_increment o v ho
      exact step _ _ (step _ _ h)
  exact key comps [] (by simp)

/-- For every component list and every colour string `c` that is not a name inherited
from `Object.prototype`, the tally holds for `c` the number of components whose
base color is `c` plus the number whose base backgroundColor is `c` (empty and missing
values not counted), `c` has an entry exactly when that sum is positive, and for the two
identical components of the scenario the tally is `rgb(0,0,0)` 2 and `rgb(255,255,255)`
2. -/
theorem colorCounts_tally (comps : List Component) (c : JsString)
    (hc : c ∉ inheritedNames) :
    List.lookup c (colorCounts comps)
        = (if occurrences comps c = 0 then none
           else some (Count.number (occurrences comps c)))
      ∧ ((List.lookup c (colorCounts comps)).isSome ↔ 0 < occurrences comps c)
      ∧ colorCounts navPair
        = [(utf16 "rgb(0,0,0)", Count.number 2), (utf16 "rgb(255,255,255)", Count.number 2)] := by
  have h0 : Tallied [] c 0 := by simp [Tallied]
  have h := tallied_foldl hc comps [] 0 h0
  simp only [Nat.zero_add] at h
  have h1 : List.lookup c (colorCounts comps)
      = (if occurrences comps c = 0 then none
         else some (Count.number (occurrences comps c))) := h
  refine ⟨h1, ?_, by decide⟩
  rw [h1]
  by_cases hz : occurrences comps c = 0
  · simp [hz]
  · simp [hz, Nat.pos_of_ne_zero hz]

theorem colorCounts_tally_witness :
    List.lookup (utf16 "white") (colorCounts threeColours) = some (Count.number 3) :=
  (colorCounts_tally threeColours (utf16 "white") (by decide)).1

/-- C6 (the code at the failing input): the component list `constructorColoured` has one
component whose backgroundColor is the string `constructor`, so its count is 1; the old value
read for the key is the inherited function, and the tally holds the text of that function
with `1` appended instead of the number 1. -/
theorem colorCounts_constructor_is_text :
    occurrences constructorColoured (utf16 "constructor") = 1
      ∧ List.lookup (utf16 "constructor") (colorCounts constructorColoured)
        = some (Count.text (utf16 "function Object() \x7b [native code] \x7d1"))
      ∧ List.lookup (utf16 "constructor") (colorCounts constructorColoured)
        ≠ some (Count.number (occurrences constructorColoured (utf16 "constructor"))) := by
  decide

/-! ### The sorted colour list -/

theorem mem_of_lookup_eq_some {obj : ColorCounts} {k : JsString} {v : Count}
    (h : List.lookup k obj = some v) : (k, v) ∈ obj := by
  obtain ⟨l1, l2, e, _⟩ := List.lookup_eq_some_iff.mp h
  rw [e]
  simp

theorem allNumbers_setOwn {obj : ColorCounts} (h : AllNumbers obj) (k : JsString) (n : Nat) :
    AllNumbers (setOwn obj k (Count.number n)) := by
  intro e he
  simp only [setOwn, List.mem_map] at he
  obtain ⟨e0, he0, rfl⟩ := he
  by_cases hk : e0.1 = k
  · exact ⟨n, by simp [hk]⟩
  · simpa [hk] using h e0 he0

theorem allNumbers_append {obj : ColorCounts} (h : AllNumbers obj) (k : JsString) (n : Nat) :
    AllNumbers (obj ++ [(k, Count.number n)]) := by
  intro e he
  rcases List.mem_append.mp he with h1 | h1
  · exact h e h1
  · simp only [List.mem_singleton] at h1
    exact ⟨n, by rw [h1]⟩

theorem allNumbers_increment {obj : ColorCounts} (h : AllNumbers obj) (k : JsString)
    (hk : k ∉ inheritedMethods.map (·.1)) : AllNumbers (increment obj k) := by
  unfold increment
  split
  · exact allNumbers_setOwn h k _
  · next s hs =>
    obtain ⟨n, hn⟩ := h _ (mem_of_lookup_eq_some hs)
    simp at hn
  · split
    · exact h
    · rw [inheritedMethods_lookup_none k hk]
      exact allNumbers_append h k 1

theorem allNumbers_tallyValue {obj : ColorCounts} (h : AllNumbers obj)
    (value : Option JsString)
    (hv : ∀ name ∈ inheritedMethods.map (·.1), value ≠ some name) :
    AllNumbers (tallyValue obj value) := by
  unfold tallyValue
  cases value with
  | none => exact h
  | some v =>
    by_cases he : v = []
    · simpa [he] using h
    · simp only [he, if_false]
      exact allNumbers_increment h v fun hm => hv v hm rfl

theorem allNumbers_foldl (comps : List Component)
    (hclean : ∀ comp ∈ comps, ∀ name ∈ inheritedMethods.map (·.1),
      comp.base.bind (·.color) ≠ some name ∧ comp.base.bind (·.backgroundColor) ≠ some name) :
    ∀ obj : ColorCounts, AllNumbers obj → AllNumbers (comps.foldl tallyComponent obj) := by
  induction comps with
  | nil => intro obj h; exact h
  | cons comp rest ih =>
    intro obj h
    rw [List.foldl_cons]
    apply ih (fun c hc => hclean c (List.mem_cons_of_mem _ hc))
    have hc := hclean comp (List.mem_cons_self _ _)
    exact allNumbers_tallyValue
      (allNumbers_tallyValue h _ fun name hn => (hc name hn).1) _
      fun name hn => (hc name hn).2

theorem allNumbers_objectEntries {obj : ColorCounts} (h : AllNumbers obj) :
    AllNumbers (objectEntries obj) := by
  intro e he
  unfold objectEntries at he
  rcases List.mem_append.mp he with h1 | h1
  · rw [List.mem_insertionSort] at h1
    exact h e (List.mem_filter.mp h1).1
  · exact h e (List.mem_filter.mp h1).1

theorem numericEntries?_eq_some : ∀ (entries : List (JsString × Count))
    (nums : List (JsString × Nat)), numericEntries? entries = some nums →
      entries = nums.map fun e => (e.1, Count.number e.2) := by
  intro entries
  induction entries with
  | nil =>
    intro nums h
    simp only [numericEntries?, Option.some.injEq] at h
    rw [← h]
    rfl
  | cons e rest ih =>
    intro nums h
    obtain ⟨k, v⟩ := e
    cases v with
    | text t => simp [numericEntries?] at h
    | number n =>
      simp only [numericEntries?, Option.map_eq_some'] at h
      obtain ⟨tail, ht, rfl⟩ := h
      rw [List.map_cons, ← ih tail ht]

theorem numericEntries?_of_allNumbers : ∀ entries : List (JsString × Count),
    AllNumbers entries → ∃ nums, numericEntries? entries = some nums := by
  intro entries
  induction entries with
  | nil => intro _; exact ⟨[], rfl⟩
  | cons e rest ih =>
    intro h
    obtain ⟨k, v⟩ := e
    obtain ⟨n, hn⟩ := h (k, v) (List.mem_cons_self _ _)
    obtain ⟨tail, ht⟩ := ih fun x hx => h x (List.mem_cons_of_mem _ hx)
    simp only at hn
    subst hn
    exact ⟨(k, n) :: tail, by simp [numericEntries?, ht]⟩

theorem sortByCount_pairwise (entries : List (JsString × Nat)) :
    (sortByCount entries).Pairwise fun a b => b.2 ≤ a.2 := by
  have hmap : (sortByCount entries).map (fun e => e.2)
      = (entries.map fun e => e.2).insertionSort (fun m n => n ≤ m) := by
    unfold sortByCount
    apply List.map_insertionSort
    intro a _ b _
    exact Iff.rfl
  have hsorted : ((sortByCount entries).map fun e => e.2).Pairwise (fun m n => n ≤ m) := by
    rw [hmap]
    exact List.sorted_insertionSort (fun m n : Nat => n ≤ m) _
  rw [List.pairwise_map] at hsorted
  exact hsorted

/-- For a component list in which no base color or backgroundColor is the name of a method
inherited from `Object.prototype`, the `topColors` list is determined, has at most 30
entries, every count in it is a number, and the counts are non-increasing from the first
entry to the last. -/
theorem topColors_of_numbers (comps : List Component)
    (hclean : ∀ comp ∈ comps, ∀ name ∈ inheritedMethods.map (·.1),
      comp.base.bind (·.color) ≠ some name
        ∧ comp.base.bind (·.backgroundColor) ≠ some name) :
    ∃ top, topColors comps = some top ∧ top.length ≤ 30
      ∧ (∀ t ∈ top, ∃ n, t.count = Count.number n)
      ∧ top.Pairwise fun a b => Count.notBelow a.count b.count = true := by
  have hnum : AllNumbers (objectEntries (colorCounts comps)) :=
    allNumbers_objectEntries (allNumbers_foldl comps hclean [] (by intro e he; simp at he))
  obtain ⟨nums, hn⟩ := numericEntries?_of_allNumbers _ hnum
  have hs := sortByCount_pairwise nums
  refine ⟨(((sortByCount nums).map fun e => (e.1, Count.number e.2)).map
    fun e => ({ color := e.1, count := e.2 } : TopColor)).take 30, ?_, ?_, ?_, ?_⟩
  · simp [topColors, sortedColors, sortedEntries?, hn]
  · simp [List.length_take]
  · intro t ht
    have ht1 := List.mem_of_mem_take ht
    simp only [List.map_map, List.mem_map, Function.comp] at ht1
    obtain ⟨e, _, rfl⟩ := ht1
    exact ⟨e.2, rfl⟩
  · apply List.Pairwise.sublist (List.take_sublist _ _)
    rw [List.map_map, List.pairwise_map]
    refine hs.imp ?_
    intro a b hab
    simpa [Count.notBelow] using hab

theorem topColors_of_numbers_witness :
    ∃ top, topColors threeColours = some top ∧ top.length ≤ 30
      ∧ (∀ t ∈ top, ∃ n, t.count = Count.number n)
      ∧ top.Pairwise fun a b => Count.notBelow a.count b.count = true :=
  topColors_of_numbers threeColours (by decide)

/-- C5 (the code at the failing input): in `constructorColoured` the tally of the colour
`constructor` is a string, the comparator yields `NaN` against it and the order of the
sorted list is not determined; however the sort leaves the three entries, `topColors` holds
a count that is not a number, so its counts are no non-increasing numbers. -/
theorem topColors_constructor_text_count :
    objectEntries (colorCounts constructorColoured)
        = [(utf16 "rgb(0, 0, 0)", Count.number 1),
           (utf16 "constructor",
             Count.text (utf16 "function Object() \x7b [native code] \x7d1")),
           (utf16 "rgb(255, 255, 255)", Count.number 2)]
      ∧ topColors constructorColoured = none
      ∧ ¬ ∃ sorted, SortedColors constructorColoured sorted
          ∧ ∀ t ∈ sorted.take 30, ∃ n, t.count = Count.number n := by
  have he : objectEntries (colorCounts constructorColoured)
      = [(utf16 "rgb(0, 0, 0)", Count.number 1),
         (utf16 "constructor",
           Count.text (utf16 "function Object() \x7b [native code] \x7d1")),
         (utf16 "rgb(255, 255, 255)", Count.number 2)] := by decide
  refine ⟨he, by decide, ?_⟩
  rintro ⟨sorted, ⟨hperm, _⟩, hnum⟩
  rw [he] at hperm
  have hlen : sorted.length = 3 := by
    have := hperm.length_eq
    simpa using this
  have hmem : (utf16 "constructor",
      Count.text (utf16 "function Object() \x7b [native code] \x7d1"))
        ∈ sorted.map fun t => (t.color, t.count) := hperm.symm.subset (by simp)
  obtain ⟨t, ht, hpair⟩ := List.mem_map.mp hmem
  have htake : sorted.take 30 = sorted := List.take_of_length_le (by omega)
  rw [htake] at hnum
  obtain ⟨n, hn⟩ := hnum t ht
  simp only [Prod.mk.injEq] at hpair
  rw [hn] at hpair
  exact absurd hpair.2 (by simp)

/-! ### The exported components -/

/-- C7: for a report with `n` components the exported list has `min n 60` entries; entry
`i` (1-based) is the export of the `i`-th input component, has id `i`, and has priority
`high` for `i ≤ 10`, `medium` for `11 ≤ i ≤ 30` and `low` for `31 ≤ i ≤ 60`; 65 input
components give exactly 60 entries. -/
theorem comps_entries (components : List Component) :
    (comps (some components)).length = min components.length 60
      ∧ (∀ i, 1 ≤ i → i ≤ min components.length 60 →
          ∃ c, components[i - 1]? = some c
            ∧ (comps (some components))[i - 1]? = some (exportComponent (i - 1) c)
            ∧ (exportComponent (i - 1) c).id = i
            ∧ (exportComponent (i - 1) c).priority
              = (if i ≤ 10 then utf16 "high" else if i ≤ 30 then utf16 "medium"
                 else utf16 "low"))
      ∧ (components.length = 65 → (comps (some components)).length = 60) := by
  have hlen : (comps (some components)).length = min components.length 60 := by
    simp [comps, MAX, Nat.min_comm]
  refine ⟨hlen, ?_, fun h => by rw [hlen, h]; rfl⟩
  intro i h1 h2
  have hi : i - 1 < components.length := by omega
  refine ⟨components[i - 1], List.getElem?_eq_getElem hi, ?_, ?_, ?_⟩
  · have h60 : i - 1 < 60 := by omega
    simp only [comps, MAX, Option.getD_some, List.getElem?_mapIdx,
      List.getElem?_take_of_lt h60, List.getElem?_eq_getElem hi, Option.map_some']
  · simp only [exportComponent]
    omega
  · simp only [exportComponent, priorityOf]
    by_cases a : i ≤ 10
    · have : i - 1 < 10 := by omega
      simp [a, this]
    · by_cases b : i ≤ 30
      · have h3 : ¬ i - 1 < 10 := by omega
        have h4 : i - 1 < 30 := by omega
        simp [a, b, h3, h4]
      · have h3 : ¬ i - 1 < 10 := by omega
        have h4 : ¬ i - 1 < 30 := by omega
        simp [a, b, h3, h4]

theorem comps_entries_witness :
    (comps (some (numberedComponents 65))).length = 60 :=
  (comps_entries (numberedComponents 65)).2.2 (by decide)

/-! ### Synthesized names -/

theorem decimalAux_digits : ∀ (fuel n : Nat) (acc : JsString),
    (∀ u ∈ acc, 48 ≤ u ∧ u ≤ 57) → ∀ u ∈ decimalAux fuel n acc, 48 ≤ u ∧ u ≤ 57 := by
  intro fuel
  induction fuel with
  | zero => intro n acc h u hu; exact h u (by simpa [decimalAux] using hu)
  | succ f ih =>
    intro n acc h u hu
    rw [decimalAux] at hu
    split at hu
    · rcases List.mem_cons.mp hu with e | e
      · omega
      · exact h u e
    · refine ih (n / 10) _ ?_ u hu
      intro v hv
      rcases List.mem_cons.mp hv with e | e
      · have := Nat.mod_lt n (by decide : 0 < 10)
        omega
      · exact h v e

theorem decimal_digits (n : Nat) : ∀ u ∈ decimal n, 48 ≤ u ∧ u ≤ 57 :=
  decimalAux_digits (n + 1) n [] (by simp)

theorem toLowerCase_of_lower (s : JsString) (h : ∀ u ∈ s, ¬ (65 ≤ u ∧ u ≤ 90)) :
    toLowerCase s = s := by
  unfold toLowerCase
  conv_rhs => rw [← List.map_id s]
  apply List.map_congr_left
  intro u hu
  simp [h u hu]

theorem toLowerCase_comp_decimal (n : Nat) :
    toLowerCase (utf16 "comp-" ++ decimal n) = utf16 "comp-" ++ decimal n := by
  apply toLowerCase_of_lower
  intro u hu
  rcases List.mem_append.mp hu with h | h
  · have : u ∈ [99, 111, 109, 112, 45] := h
    simp at this
    omega
  · have := decimal_digits n u h
    omega

/-- The two fallback names: an exported component whose selector is missing or empty is
named `component-<index>`, and one whose selector is not empty but sanitises to the empty
string is named `comp-<index>`, where `<index>` is the component's 1-based position in the
export. -/
theorem exportComponent_fallback_name (i : Nat) (c : Component) :
    ((c.selector = none ∨ c.selector = some []) →
        (exportComponent i c).name = utf16 "component-" ++ decimal (i + 1))
      ∧ (∀ sel, c.selector = some sel → sel ≠ [] → sanitise sel = [] →
        (exportComponent i c).name = utf16 "comp-" ++ decimal (i + 1)) := by
  constructor
  · rintro (h | h) <;> simp [exportComponent, nameOf, h]
  · intro sel h hne hs
    simp only [exportComponent, nameOf, h, hne, if_false, safeName, hs, if_true]
    exact toLowerCase_comp_decimal (i + 1)

theorem exportComponent_fallback_name_witness :
    (exportComponent 0 {}).name = utf16 "component-1"
      ∧ (exportComponent 4 starComponent).name = utf16 "comp-5" :=
  ⟨(exportComponent_fallback_name 0 {}).1 (Or.inl rfl),
   (exportComponent_fallback_name 4 starComponent).2 (utf16 "*") rfl (by decide) (by decide)⟩

/-- C8 (the code at the failing input): the selector `*` has no letter, digit, hyphen or
underscore and sanitises to the empty string, and the first exported component with this
selector is named `comp-1`, not `component-1`, the name that a missing or empty selector
gets at the same position. -/
theorem exportComponent_star_name :
    sanitise (utf16 "*") = []
      ∧ (exportComponent 0 starComponent).name = utf16 "comp-1"
      ∧ (exportComponent 0 starComponent).name ≠ utf16 "component-1"
      ∧ (exportComponent 0 {}).name = utf16 "component-1" := by
  decide

theorem decimal_length_le : ∀ i, i ≤ 60 → (decimal i).length ≤ 2 := by
  decide

theorem isLowerNameUnit_of_digit {u : Nat} (h : 48 ≤ u ∧ u ≤ 57) :
    isLowerNameUnit u = true := by
  simp [isLowerNameUnit, h.1, h.2]

theorem fallback_wellformed (pre : JsString) (i : Nat) (h60 : i ≤ 60)
    (hpre : ∀ u ∈ pre, isLowerNameUnit u = true) (hlen : pre.length ≤ 58) (hne : pre ≠ []) :
    pre ++ decimal i ≠ [] ∧ (pre ++ decimal i).length ≤ 60
      ∧ ∀ u ∈ pre ++ decimal i, isLowerNameUnit u = true := by
  refine ⟨by simp [hne], ?_, ?_⟩
  · have := decimal_length_le i h60
    rw [List.length_append]
    omega
  · intro u hu
    rcases List.mem_append.mp hu with h | h
    · exact hpre u h
    · exact isLowerNameUnit_of_digit (decimal_digits i u h)

theorem replaceOtherRuns_units : ∀ (s : JsString) (inRun : Bool),
    ∀ u ∈ replaceOtherRuns inRun s, isNameUnit u = true := by
  intro s
  induction s with
  | nil => intro inRun u hu; simp [replaceOtherRuns] at hu
  | cons a rest ih =>
    intro inRun u hu
    rw [replaceOtherRuns] at hu
    split at hu
    · next ha =>
      rcases List.mem_cons.mp hu with e | e
      · rw [e]; exact ha
      · exact ih false u e
    · split at hu
      · exact ih true u hu
      · rcases List.mem_cons.mp hu with e | e
        · rw [e]; decide
        · exact ih true u e

theorem sanitise_units (sel : JsString) : ∀ u ∈ sanitise sel, isNameUnit u = true := by
  intro u hu
  have h1 : u ∈ stripHyphens (replaceOtherRuns false sel) := List.mem_of_mem_take hu
  have h2 : u ∈ ((replaceOtherRuns false sel).dropWhile (· == 45)).reverse :=
    List.dropWhile_subset _ (List.mem_reverse.mp h1)
  have h3 : u ∈ replaceOtherRuns false sel :=
    List.dropWhile_subset _ (List.mem_reverse.mp h2)
  exact replaceOtherRuns_units sel false u h3

theorem toLowerCase_units (s : JsString) (h : ∀ u ∈ s, isNameUnit u = true) :
    ∀ u ∈ toLowerCase s, isLowerNameUnit u = true := by
  intro u hu
  simp only [toLowerCase, List.mem_map] at hu
  obtain ⟨v, hv, rfl⟩ := hu
  have hn := h v hv
  simp only [isNameUnit, Bool.or_eq_true, Bool.and_eq_true, decide_eq_true_eq] at hn
  simp only [isLowerNameUnit, Bool.or_eq_true, Bool.and_eq_true, decide_eq_true_eq]
  split <;> omega

/-- C9: for every selector (a string, or missing) and every index up to 60, the name
returned by `safeName` is not empty, has at most 60 code units, and consists only of
lower-case ASCII letters, digits, hyphens and underscores. -/
theorem safeName_wellformed (sel : Option JsString) (i : Nat) (h60 : i ≤ 60) :
    safeName sel i ≠ [] ∧ (safeName sel i).length ≤ 60
      ∧ ∀ u ∈ safeName sel i, isLowerNameUnit u = true := by
  have hcomponent := fallback_wellformed (utf16 "component-") i h60 (by decide) (by decide)
    (by decide)
  have hcomp := fallback_wellformed (utf16 "comp-") i h60 (by decide) (by decide) (by decide)
  cases sel with
  | none => simpa [safeName] using hcomponent
  | some s =>
    by_cases hs : s = []
    · simpa [safeName, hs] using hcomponent
    · by_cases hz : sanitise s = []
      · have e : safeName (some s) i = utf16 "comp-" ++ decimal i := by
          simp only [safeName, hs, if_false, hz, if_true]
          exact toLowerCase_comp_decimal i
        rw [e]
        exact hcomp
      · have e : safeName (some s) i = toLowerCase (sanitise s) := by
          simp only [safeName, hs, if_false, hz]
        rw [e]
        refine ⟨?_, ?_, toLowerCase_units _ (sanitise_units s)⟩
        · intro h
          apply hz
          simpa [toLowerCase] using h
        · simp [toLowerCase, sanitise, List.length_take]

theorem safeName_wellformed_witness :
    safeName (some (utf16 "A.nav > LI:nth-of-type(2)")) 3 = utf16 "a-nav-li-nth-of-type-2"
      ∧ (safeName (some (utf16 "A.nav > LI:nth-of-type(2)")) 3).length ≤ 60 :=
  ⟨by decide, (safeName_wellformed (some (utf16 "A.nav > LI:nth-of-type(2)")) 3
    (by decide)).2.1⟩

/-! ### Navigation recovery after the click probe -/

theorem probeSelector_state {σ : Type} (page : Page σ) (s s0 : σ) (sel : JsString)
    (base : Snapshot) (hsel : sel ≠ [] ∧ sel.length ≤ 200)
    (hbase : styleSnapshotFor page s sel = (s0, some base)) :
    (probeSelector page s sel).1
      = (computeBeforeAfter page (clickProbe page (stateBeforeClick page s0 sel) sel).1
          sel .mousedown).1 := by
  have hguard : ¬ (sel = [] ∨ sel.length > 200) := by
    rintro (h | h)
    · exact hsel.1 h
    · omega
  simp only [probeSelector, hguard, if_false, hbase, stateBeforeClick]

theorem url_styleSnapshotFor {σ : Type} (page : Page σ)
    (hquery : ∀ t q, page.url (page.query t q).1 = page.url t) (t : σ) (sel : JsString) :
    page.url (styleSnapshotFor page t sel).1 = page.url t := by
  have h := hquery t sel
  unfold styleSnapshotFor
  split <;> · rename_i e; rw [e] at h; exact h

theorem url_mousedown_probe {σ : Type} (page : Page σ)
    (hwait : ∀ t ms, page.url (page.waitForTimeout t ms) = page.url t)
    (hquery : ∀ t q, page.url (page.query t q).1 = page.url t)
    (hdispatch : ∀ t q ev, page.url (page.dispatchEvent t q ev) = page.url t)
    (t : σ) (sel : JsString) :
    page.url (computeBeforeAfter page t sel .mousedown).1 = page.url t := by
  simp only [computeBeforeAfter, performAction]
  rw [url_styleSnapshotFor page hquery, hdispatch, hwait, hdispatch,
    url_styleSnapshotFor page hquery]

theorem url_clickProbe_of_navigation {σ : Type} (page : Page σ)
    (hgoto : ∀ t u, (page.goto t u).2 = true ∧ page.url (page.goto t u).1 = u)
    (hwait : ∀ t ms, page.url (page.waitForTimeout t ms) = page.url t)
    (t : σ) (sel : JsString)
    (hnav : page.url (computeBeforeAfter page t sel .click).1 ≠ page.url t) :
    page.url (clickProbe page t sel).1 = page.url t := by
  have hg := hgoto (computeBeforeAfter page t sel .click).1 (page.url t)
  simp only [clickProbe, hnav, ne_eq, not_false_eq_true, if_true]
  split
  · next s2 e => rw [hwait]; rw [e] at hg; exact hg.2
  · next s2 e => rw [e] at hg; simp at hg

theorem probeSelector_state_eq {σ : Type} (page : Page σ) (s s0 : σ) (sel : JsString)
    (base : Snapshot) (hsel : sel ≠ [] ∧ sel.length ≤ 200)
    (hbase : styleSnapshotFor page s sel = (s0, some base)) :
    (probeSelector page s sel).1
      = (computeBeforeAfter page (stateBeforeMousedown page s0 sel) sel .mousedown).1 :=
  probeSelector_state page s s0 sel base hsel hbase

/-- C10 (amended): for an inspected selector whose click probe navigates the page to a
different URL, when the recovery reload of the URL recorded before the click succeeds and
has the page on that URL after its 400 ms wait, and the mousedown probe of the same
selector that follows does not change the URL, the page URL at the moment the next
selector's base snapshot is taken (the page state in which the loop body ends) equals the
URL recorded just before that click. The provisos speak of this one reload and this one
probe only. -/
theorem probeSelector_restores_url {σ : Type} (page : Page σ) (s s0 : σ) (sel : JsString)
    (base : Snapshot) (hsel : sel ≠ [] ∧ sel.length ≤ 200)
    (hbase : styleSnapshotFor page s sel = (s0, some base))
    (hnav : page.url (stateAfterClick page s0 sel) ≠ page.url (stateBeforeClick page s0 sel))
    (hreload : (page.goto (stateAfterClick page s0 sel)
          (page.url (stateBeforeClick page s0 sel))).2 = true
      ∧ page.url (page.waitForTimeout (page.goto (stateAfterClick page s0 sel)
          (page.url (stateBeforeClick page s0 sel))).1 400)
        = page.url (stateBeforeClick page s0 sel))
    (hdown : page.url
        (computeBeforeAfter page (stateBeforeMousedown page s0 sel) sel .mousedown).1
      = page.url (stateBeforeMousedown page s0 sel)) :
    page.url (probeSelector page s sel).1 = page.url (stateBeforeClick page s0 sel) := by
  rw [probeSelector_state_eq page s s0 sel base hsel hbase, hdown]
  have hnav1 : page.url (computeBeforeAfter page (stateBeforeClick page s0 sel) sel .click).1
      ≠ page.url (stateBeforeClick page s0 sel) := hnav
  simp only [stateBeforeMousedown, clickProbe, hnav1, ne_eq, not_false_eq_true, if_true]
  have h1 := hreload.1
  have h2 := hreload.2
  simp only [stateAfterClick] at h1 h2
  split
  · next s2 e =>
    rw [e] at h2
    exact h2
  · next s2 e =>
    rw [e] at h1
    simp at h1

theorem probeSelector_restores_url_witness :
    linkPage.url (probeSelector linkPage homeUrl (utf16 "a.cta")).1 = homeUrl :=
  probeSelector_restores_url linkPage homeUrl homeUrl (utf16 "a.cta")
    (.full (utf16 "a.cta") (plainReading [])) (by decide) rfl (by decide)
    ⟨rfl, rfl⟩ rfl

/-- C10 (as stated, refuted): on `mousedownPage` the click probe of `a.cta` navigates from
the home page to the cart page and `goto` restores the home page, but the mousedown probe
that follows navigates to the menu page, so the next selector's base snapshot is taken on
the menu page; on `gotoFailsPage` the click navigates to the cart page, the reload throws,
and the next selector's base snapshot is taken on the cart page. In both the URL is not the
one recorded before the click. -/
theorem probeSelector_mousedown_leaves_url :
    mousedownPage.url (stateBeforeClick mousedownPage homeUrl (utf16 "a.cta")) = homeUrl
      ∧ mousedownPage.url (stateAfterClick mousedownPage homeUrl (utf16 "a.cta"))
        = utf16 "https://shop.test/cart"
      ∧ mousedownPage.url (stateBeforeMousedown mousedownPage homeUrl (utf16 "a.cta"))
        = homeUrl
      ∧ mousedownPage.url (probeSelector mousedownPage homeUrl (utf16 "a.cta")).1
        = utf16 "https://shop.test/menu"
      ∧ mousedownPage.url (probeSelector mousedownPage homeUrl (utf16 "a.cta")).1
        ≠ mousedownPage.url (stateBeforeClick mousedownPage homeUrl (utf16 "a.cta"))
      ∧ gotoFailsPage.url (stateBeforeClick gotoFailsPage homeUrl (utf16 "a.cta")) = homeUrl
      ∧ gotoFailsPage.url (probeSelector gotoFailsPage homeUrl (utf16 "a.cta")).1
        = utf16 "https://shop.test/cart" := by
  decide

/-! ### Class differences of an interaction probe -/

theorem classesOf_eq (snap : Option Snapshot) : classesOf snap = classListOrEmpty snap := by
  cases snap with
  | none => rfl
  | some v => cases v <;> rfl

theorem filter_not_contains_eq_nil (xs ys : List JsString) :
    xs.filter (fun c => !ys.contains c) = [] ↔ ∀ c ∈ xs, c ∈ ys := by
  simp [List.filter_eq_nil_iff]

theorem styleSnapshotFor_classes {σ : Type} (page : Page σ) (t : σ) (sel : JsString) :
    (styleSnapshotFor page t sel).1 = (page.query t sel).1
      ∧ classListOrEmpty (styleSnapshotFor page t sel).2 = outcomeClasses (page.query t sel).2 := by
  unfold styleSnapshotFor
  split <;> · rename_i e; rw [e]; exact ⟨rfl, rfl⟩

theorem class_filters (before after : List JsString) :
    after.filter (fun c => !before.contains c)
        = after.filter (fun c => decide (c ∉ before))
      ∧ before.filter (fun c => !after.contains c)
        = before.filter (fun c => decide (c ∉ after))
      ∧ (∀ c ∈ after.filter (fun c => !before.contains c), c ∉ before)
      ∧ (∀ c ∈ before.filter (fun c => !after.contains c), c ∉ after)
      ∧ ((after.filter (fun c => !before.contains c) = []
            ∧ before.filter (fun c => !after.contains c) = []) ↔
          ∀ c, c ∈ before ↔ c ∈ after) := by
  refine ⟨?_, ?_, ?_, ?_, ?_⟩
  · apply List.filter_congr
    intro c _
    simp
  · apply List.filter_congr
    intro c _
    simp
  · intro c hc
    simpa using (List.mem_filter.mp hc).2
  · intro c hc
    simpa using (List.mem_filter.mp hc).2
  · rw [filter_not_contains_eq_nil, filter_not_contains_eq_nil]
    constructor
    · rintro ⟨h1, h2⟩ c
      exact ⟨h2 c, h1 c⟩
    · intro h
      exact ⟨fun c hc => (h c).mpr hc, fun c hc => (h c).mp hc⟩

theorem computeBeforeAfter_fields {σ : Type} (page : Page σ) (s : σ) (sel : JsString)
    (action : Action) :
    classListOrEmpty (computeBeforeAfter page s sel action).2.before
        = classesBefore page s sel
      ∧ classListOrEmpty (computeBeforeAfter page s sel action).2.after
        = classesAfter page s sel action
      ∧ (computeBeforeAfter page s sel action).2.classAdded
        = (classesAfter page s sel action).filter
            (fun c => !(classesBefore page s sel).contains c)
      ∧ (computeBeforeAfter page s sel action).2.classRemoved
        = (classesBefore page s sel).filter
            (fun c => !(classesAfter page s sel action).contains c) := by
  have hb := styleSnapshotFor_classes page s sel
  have ha := styleSnapshotFor_classes page
    (performAction page (styleSnapshotFor page s sel).1 sel action) sel
  rw [hb.1] at ha
  simp only [computeBeforeAfter, classesOf_eq, classesBefore, classesAfter, hb.1, hb.2, ha.2,
    and_self]

/-- C13: for the snapshots that `computeBeforeAfter` takes of the page before and after the
interaction (a missing or error snapshot counting as an empty class list), the record it
returns holds these two snapshots, `classAdded` is the after classes that do not occur among
the before classes and `classRemoved` is the before classes that do not occur among the
after classes, each in its original order; so `classAdded` shares no class with before,
`classRemoved` shares no class with after, and both are empty exactly when before and after
contain the same classes. -/
theorem computeBeforeAfter_class_diff {σ : Type} (page : Page σ) (s : σ) (sel : JsString)
    (action : Action) :
    classListOrEmpty (computeBeforeAfter page s sel action).2.before
        = classesBefore page s sel
      ∧ classListOrEmpty (computeBeforeAfter page s sel action).2.after
        = classesAfter page s sel action
      ∧ (computeBeforeAfter page s sel action).2.classAdded
        = (classesAfter page s sel action).filter
            (fun c => decide (c ∉ classesBefore page s sel))
      ∧ (computeBeforeAfter page s sel action).2.classRemoved
        = (classesBefore page s sel).filter
            (fun c => decide (c ∉ classesAfter page s sel action))
      ∧ (∀ c ∈ (computeBeforeAfter page s sel action).2.classAdded,
          c ∉ classesBefore page s sel)
      ∧ (∀ c ∈ (computeBeforeAfter page s sel action).2.classRemoved,
          c ∉ classesAfter page s sel action)
      ∧ (((computeBeforeAfter page s sel action).2.classAdded = []
            ∧ (computeBeforeAfter page s sel action).2.classRemoved = []) ↔
          ∀ c, c ∈ classesBefore page s sel ↔ c ∈ classesAfter page s sel action) := by
  obtain ⟨h1, h2, h3, h4⟩ := computeBeforeAfter_fields page s sel action
  obtain ⟨e1, e2, d1, d2, hiff⟩ :=
    class_filters (classesBefore page s sel) (classesAfter page s sel action)
  rw [h3, h4]
  exact ⟨h1, h2, e1, e2, d1, d2, hiff⟩

/-- The click probe on `togglePage`, started with the classes `btn closed`: `open` is added
and `closed` is removed. -/
theorem computeBeforeAfter_toggle :
    ((computeBeforeAfter togglePage [utf16 "btn", utf16 "closed"] (utf16 "a.btn") .click).2.classAdded,
      (computeBeforeAfter togglePage [utf16 "btn", utf16 "closed"] (utf16 "a.btn") .click).2.classRemoved)
      = ([utf16 "open"], [utf16 "closed"]) := by
  decide

/-! ### The sample text of an exported component -/

theorem head?_of_initial {l1 l2 : JsString} (h : l1 <+: l2) {u : Nat}
    (hu : l1.head? = some u) : l2.head? = some u := by
  obtain ⟨t, rfl⟩ := h
  cases l1 with
  | nil => simp at hu
  | cons a rest => simpa using hu

theorem collapseWhiteSpace_spaces : ∀ (s : JsString) (inRun : Bool),
    ∀ u ∈ collapseWhiteSpace inRun s, isWhiteSpace u = true → u = 32 := by
  intro s
  induction s with
  | nil => intro inRun u hu; simp [collapseWhiteSpace] at hu
  | cons a rest ih =>
    intro inRun u hu hw
    rw [collapseWhiteSpace] at hu
    split at hu
    · split at hu
      · exact ih true u hu hw
      · rcases List.mem_cons.mp hu with e | e
        · exact e
        · exact ih true u e hw
    · next ha =>
      rcases List.mem_cons.mp hu with e | e
      · rw [e] at hw; exact absurd hw ha
      · exact ih false u e hw

theorem collapseWhiteSpace_chain : ∀ (s : JsString) (inRun : Bool),
    (collapseWhiteSpace inRun s).Chain' (fun a b => ¬ (a = 32 ∧ b = 32))
      ∧ (inRun = true → ∀ u, (collapseWhiteSpace inRun s).head? = some u → u ≠ 32) := by
  intro s
  induction s with
  | nil => intro inRun; simp [collapseWhiteSpace]
  | cons a rest ih =>
    intro inRun
    rw [collapseWhiteSpace]
    split
    · split
      · next hr => exact ⟨(ih true).1, fun _ => (ih true).2 rfl⟩
      · next hr =>
        refine ⟨?_, fun h => absurd h hr⟩
        rw [List.chain'_cons']
        refine ⟨?_, (ih true).1⟩
        intro y hy h
        exact (ih true).2 rfl y hy h.2
    · next ha =>
      have hne : a ≠ 32 := by
        intro e
        rw [e] at ha
        exact ha (by decide)
      refine ⟨?_, fun _ u hu => ?_⟩
      · rw [List.chain'_cons']
        exact ⟨fun y _ h => hne h.1, (ih false).1⟩
      · simp only [List.head?_cons, Option.some.injEq] at hu
        rw [← hu]; exact hne

theorem replaceWhiteSpaceRuns_cons_other (a : Nat) (rest : JsString)
    (ha : ¬ isWhiteSpace a = true) :
    replaceWhiteSpaceRuns (a :: rest) = a :: replaceWhiteSpaceRuns rest := by
  cases rest with
  | nil => simp [replaceWhiteSpaceRuns, ha]
  | cons v r => simp [replaceWhiteSpaceRuns, ha]

theorem collapseWhiteSpace_eq_spec : ∀ s : JsString,
    collapseWhiteSpace false s = replaceWhiteSpaceRuns s
      ∧ ∀ w, isWhiteSpace w = true →
          32 :: collapseWhiteSpace true s = replaceWhiteSpaceRuns (w :: s) := by
  intro s
  induction s with
  | nil =>
    refine ⟨by simp [collapseWhiteSpace, replaceWhiteSpaceRuns], ?_⟩
    intro w hw
    simp [collapseWhiteSpace, replaceWhiteSpaceRuns, hw]
  | cons a rest ih =>
    by_cases ha : isWhiteSpace a = true
    · constructor
      · rw [collapseWhiteSpace]
        simp only [ha, if_true, Bool.false_eq_true, if_false]
        exact ih.2 a ha
      · intro w hw
        rw [collapseWhiteSpace]
        simp only [ha, if_true]
        rw [ih.2 a ha]
        simp [replaceWhiteSpaceRuns, hw, ha]
    · constructor
      · rw [collapseWhiteSpace, replaceWhiteSpaceRuns_cons_other a rest ha]
        simp [ha, ih.1]
      · intro w hw
        rw [collapseWhiteSpace]
        simp only [ha, if_false]
        rw [ih.1, ← replaceWhiteSpaceRuns_cons_other a rest ha]
        simp [replaceWhiteSpaceRuns, hw, ha]

theorem sampleText_initial (t : Option JsString) :
    sampleText t <+: (collapseWhiteSpace false (t.getD [])).dropWhile isWhiteSpace := by
  unfold sampleText trim
  exact List.IsPrefix.trans ( List.take_prefix _ _) ( List.rdropWhile_prefix _ _)

/-- C12: the sample text of every exported component has at most 200 code units, does not
start with white space, contains no white space other than spaces, no two of them adjacent,
and is the input text sample with each white space run replaced by one space, trimmed, and
cut to its first 200 code units (the empty string when the text sample is missing). -/
theorem exportComponent_sampleText (i : Nat) (c : Component) :
    (exportComponent i c).sampleText.length ≤ 200
      ∧ (∀ u, (exportComponent i c).sampleText.head? = some u → isWhiteSpace u = false)
      ∧ (∀ u ∈ (exportComponent i c).sampleText, isWhiteSpace u = true → u = 32)
      ∧ (exportComponent i c).sampleText.Chain' (fun a b => ¬ (a = 32 ∧ b = 32))
      ∧ (exportComponent i c).sampleText = sampleTextSpec c.textSample := by
  have hp := sampleText_initial c.textSample
  have hpart : sampleText c.textSample <:+: collapseWhiteSpace false (c.textSample.getD []) :=
    hp.isInfix.trans (List.dropWhile_suffix _).isInfix
  refine ⟨?_, ?_, ?_, ?_, ?_⟩
  · simp [exportComponent, sampleText, List.length_take]
  · intro u hu
    have h1 := head?_of_initial hp hu
    have h2 := List.head?_dropWhile_not isWhiteSpace
      (collapseWhiteSpace false (c.textSample.getD []))
    rw [h1] at h2
    exact h2
  · intro u hu hw
    exact collapseWhiteSpace_spaces _ false u (List.IsInfix.subset hpart hu) hw
  · exact List.Chain'.infix (collapseWhiteSpace_chain _ false).1 hpart
  · show sampleText c.textSample = sampleTextSpec c.textSample
    cases h : c.textSample with
    | none => simp [sampleText, sampleTextSpec, collapseWhiteSpace, trim]
    | some t =>
      simp only [sampleText, sampleTextSpec, Option.getD_some, trim,
        (collapseWhiteSpace_eq_spec t).1, List.rdropWhile]

/-! ### Ties in the sorted colour list -/

theorem foldl_tallyComponent_eq (comps : List Component) :
    ∀ obj : ColorCounts,
      comps.foldl tallyComponent obj = (scanned comps).foldl increment obj := by
  induction comps with
  | nil => intro obj; rfl
  | cons comp rest ih =>
    intro obj
    have hstep : tallyComponent obj comp
        = (((comp.base.bind (·.color)).toList
            ++ (comp.base.bind (·.backgroundColor)).toList).filter
              fun v => decide (v ≠ [])).foldl increment obj := by
      unfold tallyComponent tallyValue
      cases comp.base.bind (·.color) with
      | none =>
        cases comp.base.bind (·.backgroundColor) with
        | none => simp
        | some b => by_cases hb : b = [] <;> simp [hb]
      | some a =>
        cases comp.base.bind (·.backgroundColor) with
        | none => by_cases ha : a = [] <;> simp [ha]
        | some b => by_cases ha : a = [] <;> by_cases hb : b = [] <;> simp [ha, hb]
    rw [List.foldl_cons, ih, hstep]
    simp only [scanned, List.flatMap_cons, List.foldl_append]

theorem mem_keys_of_lookup {obj : ColorCounts} {k : JsString} {v : Count}
    (h : List.lookup k obj = some v) : k ∈ obj.map (·.1) :=
  List.mem_map.mpr ⟨(k, v), mem_of_lookup_eq_some h, rfl⟩

theorem keys_increment (obj : ColorCounts) (k : JsString) :
    (increment obj k).map (·.1) = noteKey (obj.map (·.1)) k := by
  unfold increment noteKey
  split
  · next n hl => rw [keys_setOwn]; simp [mem_keys_of_lookup hl]
  · next t hl => rw [keys_setOwn]; simp [mem_keys_of_lookup hl]
  · next hnone =>
    have hk : k ∉ obj.map (·.1) := by
      intro hm
      obtain ⟨e, he, e1⟩ := List.mem_map.mp hm
      have := List.lookup_eq_none_iff.mp hnone e he
      simp [e1] at this
    by_cases hp : k = protoKey
    · simp [hp]
    · simp only [hp, if_false, hk, or_self]
      split <;> simp

theorem keys_foldl_increment (l : List JsString) :
    ∀ obj : ColorCounts,
      (l.foldl increment obj).map (·.1) = l.foldl noteKey (obj.map (·.1)) := by
  induction l with
  | nil => intro obj; rfl
  | cons k rest ih =>
    intro obj
    rw [List.foldl_cons, List.foldl_cons, ih, keys_increment]

theorem keys_colorCounts (comps : List Component) :
    (colorCounts comps).map (·.1) = (scanned comps).foldl noteKey [] := by
  unfold colorCounts
  rw [foldl_tallyComponent_eq, keys_foldl_increment]
  rfl

theorem noteKey_extends (l : List JsString) :
    ∀ keys : List JsString, keys <+: l.foldl noteKey keys := by
  induction l with
  | nil => intro keys; exact List.prefix_refl _
  | cons k rest ih =>
    intro keys
    rw [List.foldl_cons]
    refine List.IsPrefix.trans ?_ (ih _)
    unfold noteKey
    split
    · exact List.prefix_refl _
    · exact List.prefix_append _ _

theorem mem_noteKey {keys : List JsString} {k a : JsString} :
    a ∈ noteKey keys k ↔ a ∈ keys ∨ (a = k ∧ k ≠ protoKey) := by
  unfold noteKey
  split
  · next h =>
    constructor
    · exact Or.inl
    · rintro (h1 | ⟨h1, h2⟩)
      · exact h1
      · rcases h with h | h
        · rw [h1]; exact h
        · exact absurd h h2
  · next h =>
    have hp : k ≠ protoKey := fun e => h (Or.inr e)
    simp [hp]

theorem proto_not_mem_foldl_noteKey (l : List JsString) :
    ∀ keys : List JsString, protoKey ∉ keys → protoKey ∉ l.foldl noteKey keys := by
  induction l with
  | nil => intro keys h; exact h
  | cons k rest ih =>
    intro keys h
    rw [List.foldl_cons]
    apply ih
    rw [mem_noteKey]
    rintro (h1 | ⟨h1, h2⟩)
    · exact h h1
    · exact h2 h1.symm

theorem mem_foldl_noteKey (l : List JsString) :
    ∀ (keys : List JsString) (a : JsString),
      a ∈ l.foldl noteKey keys → a ∈ keys ∨ a ∈ l := by
  induction l with
  | nil => intro keys a h; exact Or.inl h
  | cons k rest ih =>
    intro keys a h
    rw [List.foldl_cons] at h
    rcases ih _ a h with h1 | h1
    · rcases mem_noteKey.mp h1 with h2 | ⟨h2, _⟩
      · exact Or.inl h2
      · exact Or.inr (h2 ▸ List.mem_cons_self _ _)
    · exact Or.inr (List.mem_cons_of_mem _ h1)

theorem pair_after_seen (b : JsString) (hb : b ≠ protoKey) (a : JsString) (l : List JsString) :
    ∀ keys : List JsString, a ∈ keys → b ∉ keys → b ∈ l →
      List.Sublist [a, b] (l.foldl noteKey keys) := by
  induction l with
  | nil => intro keys _ _ h; simp at h
  | cons x rest ih =>
    intro keys ha hbk hbl
    rw [List.foldl_cons]
    by_cases hx : x = b
    · subst hx
      have e : noteKey keys x = keys ++ [x] := by simp [noteKey, hbk, hb]
      rw [e]
      exact ((List.singleton_sublist.mpr ha).append (List.Sublist.refl [x])).trans
        (noteKey_extends rest _).sublist
    · apply ih
      · exact mem_noteKey.mpr (Or.inl ha)
      · rw [mem_noteKey]
        rintro (h | ⟨h, _⟩)
        · exact hbk h
        · exact hx h.symm
      · rcases List.mem_cons.mp hbl with h | h
        · exact absurd h.symm hx
        · exact h

theorem pair_first_seen (a b : JsString) (ha : a ≠ protoKey) (hb : b ≠ protoKey)
    (l : List JsString) :
    ∀ keys : List JsString, a ∉ keys → b ∉ keys → b ∈ l →
      firstIndex a l < firstIndex b l → List.Sublist [a, b] (l.foldl noteKey keys) := by
  induction l with
  | nil => intro keys _ _ h; simp at h
  | cons x rest ih =>
    intro keys hak hbk hbl hlt
    rw [List.foldl_cons]
    by_cases hxa : x = a
    · subst hxa
      have hne : b ≠ x := by
        intro e
        subst e
        simp [firstIndex] at hlt
      have e : noteKey keys x = keys ++ [x] := by simp [noteKey, hak, ha]
      apply pair_after_seen b hb x rest
      · rw [e]; simp
      · rw [e]; simp [hbk, hne]
      · rcases List.mem_cons.mp hbl with h | h
        · exact absurd h hne
        · exact h
    · have hxb : x ≠ b := by
        intro e
        subst e
        simp [firstIndex] at hlt
      apply ih
      · rw [mem_noteKey]
        rintro (h | ⟨h, _⟩)
        · exact hak h
        · exact hxa h.symm
      · rw [mem_noteKey]
        rintro (h | ⟨h, _⟩)
        · exact hbk h
        · exact hxb h.symm
      · rcases List.mem_cons.mp hbl with h | h
        · exact absurd h.symm hxb
        · exact h
      · simpa [firstIndex, hxa, hxb] using hlt

theorem lookup_of_mem_nodup (obj : ColorCounts) (k : JsString) (v : Count)
    (hnd : (obj.map (·.1)).Nodup) (hmem : (k, v) ∈ obj) : List.lookup k obj = some v := by
  induction obj with
  | nil => simp at hmem
  | cons e rest ih =>
    obtain ⟨k1, v1⟩ := e
    rw [List.map_cons, List.nodup_cons] at hnd
    rw [lookup_cons_eq]
    rcases List.mem_cons.mp hmem with h | h
    · injection h with h1 h2
      simp [h1, h2]
    · have hk : k ≠ k1 := by
        intro e
        apply hnd.1
        rw [← e]
        exact List.mem_map.mpr ⟨(k, v), h, rfl⟩
      simp only [hk, if_false]
      exact ih hnd.2 h

theorem pair_entries (obj : ColorCounts) (c1 c2 : JsString) (v1 v2 : Count)
    (hnd : (obj.map (·.1)).Nodup)
    (h1 : List.lookup c1 obj = some v1) (h2 : List.lookup c2 obj = some v2)
    (hsub : List.Sublist [c1, c2] (obj.map (·.1))) :
    List.Sublist [(c1, v1), (c2, v2)] obj := by
  obtain ⟨l, hl, hmap⟩ := List.sublist_map_iff.mp hsub
  match l, hl, hmap with
  | [e1, e2], hl, hmap =>
    simp only [List.map_cons, List.map_nil, List.cons.injEq, and_true] at hmap
    obtain ⟨k1, w1⟩ := e1
    obtain ⟨k2, w2⟩ := e2
    obtain ⟨ha, hb⟩ := hmap
    simp only at ha hb
    subst ha
    subst hb
    have m1 : (c1, w1) ∈ obj := hl.subset (by simp)
    have m2 : (c2, w2) ∈ obj := hl.subset (by simp)
    have q1 := lookup_of_mem_nodup obj c1 w1 hnd m1
    have q2 := lookup_of_mem_nodup obj c2 w2 hnd m2
    rw [h1] at q1
    rw [h2] at q2
    injection q1 with q1
    injection q2 with q2
    rw [q1, q2]
    exact hl

theorem objectEntries_perm (obj : ColorCounts) : List.Perm (objectEntries obj) obj := by
  unfold objectEntries
  exact ((List.perm_insertionSort _ _).append_right _).trans (List.filter_append_perm _ obj)

theorem pair_objectEntries (obj : ColorCounts) (e1 e2 : JsString × Count)
    (h1 : arrayIndex? e1.1 = none) (h2 : arrayIndex? e2.1 = none)
    (hsub : List.Sublist [e1, e2] obj) : List.Sublist [e1, e2] (objectEntries obj) := by
  unfold objectEntries
  have hf := hsub.filter fun e => !(arrayIndex? e.1).isSome
  have e : [e1, e2].filter (fun e => !(arrayIndex? e.1).isSome) = [e1, e2] := by
    simp [List.filter_cons, h1, h2]
  rw [e] at hf
  exact hf.trans (List.sublist_append_right _ _)

theorem pair_sortByCount (entries : List (JsString × Nat)) (c1 c2 : JsString) (n : Nat)
    (hsub : List.Sublist [(c1, n), (c2, n)] entries) :
    List.Sublist [(c1, n), (c2, n)] (sortByCount entries) := by
  unfold sortByCount
  exact List.pair_sublist_insertionSort (Nat.le_refl n) hsub

theorem pair_numeric (nums : List (JsString × Nat)) (c1 c2 : JsString) (n : Nat)
    (hsub : List.Sublist [(c1, Count.number n), (c2, Count.number n)]
      (nums.map fun e => (e.1, Count.number e.2))) :
    List.Sublist [(c1, n), (c2, n)] nums := by
  obtain ⟨l, hl, hmap⟩ := List.sublist_map_iff.mp hsub
  rcases l with _ | ⟨e1, _ | ⟨e2, _ | ⟨e3, rest⟩⟩⟩
  · simp at hmap
  · simp at hmap
  · simp only [List.map_cons, List.map_nil, List.cons.injEq, Prod.mk.injEq,
      Count.number.injEq, and_true] at hmap
    obtain ⟨⟨h1, h2⟩, h3, h4⟩ := hmap
    have q1 : e1 = (c1, n) := Prod.ext h1.symm h2.symm
    have q2 : e2 = (c2, n) := Prod.ext h3.symm h4.symm
    rw [← q1, ← q2]
    exact hl
  · simp at hmap

theorem firstIndex_of_pair (a b : JsString) :
    ∀ l : List JsString, l.Nodup → List.Sublist [a, b] l →
      firstIndex a l < firstIndex b l := by
  intro l
  induction l with
  | nil => intro _ h; simp at h
  | cons x rest ih =>
    intro hnd hsub
    rw [List.nodup_cons] at hnd
    by_cases hxa : x = a
    · subst hxa
      have hb : b ∈ rest := by
        cases hsub with
        | cons _ h => exact h.subset (by simp)
        | cons₂ _ h => exact h.subset (by simp)
      have hne : x ≠ b := fun e => hnd.1 (e ▸ hb)
      simp [firstIndex, hne]
    · have hsub1 : List.Sublist [a, b] rest := by
        cases hsub with
        | cons _ h => exact h
        | cons₂ _ h => exact absurd rfl hxa
      have hb : b ∈ rest := hsub1.subset (by simp)
      have hxb : x ≠ b := fun e => hnd.1 (e ▸ hb)
      have := ih hnd.2 hsub1
      simp only [firstIndex, hxa, hxb, if_false]
      omega

theorem sortedColors_unfold (comps : List Component) (sorted : List TopColor)
    (h : sortedColors comps = some sorted) :
    ∃ nums, objectEntries (colorCounts comps) = nums.map (fun e => (e.1, Count.number e.2))
      ∧ sorted = (sortByCount nums).map
          fun e => ({ color := e.1, count := Count.number e.2 } : TopColor) := by
  simp only [sortedColors, sortedEntries?, Option.map_map, Option.map_eq_some'] at h
  obtain ⟨nums, hn, hs⟩ := h
  refine ⟨nums, numericEntries?_eq_some _ nums hn, ?_⟩
  rw [← hs]
  simp [List.map_map, Function.comp]

theorem sortedColors_keys_perm (comps : List Component) (sorted : List TopColor)
    (h : sortedColors comps = some sorted) :
    List.Perm (sorted.map (·.color)) ((colorCounts comps).map (·.1)) := by
  obtain ⟨nums, he, hs⟩ := sortedColors_unfold comps sorted h
  have h1 : sorted.map (·.color) = (sortByCount nums).map (·.1) := by
    rw [hs, List.map_map]
    rfl
  have h2 : (objectEntries (colorCounts comps)).map (·.1) = nums.map (·.1) := by
    rw [he, List.map_map]
    rfl
  rw [h1]
  unfold sortByCount
  refine ((List.perm_insertionSort _ nums).map _).trans ?_
  rw [← h2]
  exact (objectEntries_perm _).map _

/-- When the sorted colour list is determined (every count is a number) and two colours
that are not array indices have the same tallied count, the colour first seen earlier in
the scan (components in list order, each component's color before its backgroundColor)
comes earlier in the sorted colour list. -/
theorem sortedColors_ties_first_seen (comps : List Component) (sorted : List TopColor)
    (c1 c2 : JsString) (n : Nat)
    (hsorted : sortedColors comps = some sorted)
    (hidx1 : arrayIndex? c1 = none) (hidx2 : arrayIndex? c2 = none)
    (hcount1 : List.lookup c1 (colorCounts comps) = some (Count.number n))
    (hcount2 : List.lookup c2 (colorCounts comps) = some (Count.number n))
    (hseen : firstIndex c1 (scanned comps) < firstIndex c2 (scanned comps)) :
    firstIndex c1 (sorted.map (·.color)) < firstIndex c2 (sorted.map (·.color)) := by
  have hkeys := keys_colorCounts comps
  have hnd := keys_nodup_colorCounts comps
  have hproto : protoKey ∉ (colorCounts comps).map (·.1) := by
    rw [hkeys]
    exact proto_not_mem_foldl_noteKey _ [] (by simp)
  have hk1 := mem_keys_of_lookup hcount1
  have hk2 := mem_keys_of_lookup hcount2
  have hp1 : c1 ≠ protoKey := fun e => hproto (e ▸ hk1)
  have hp2 : c2 ≠ protoKey := fun e => hproto (e ▸ hk2)
  have hs2 : c2 ∈ scanned comps := by
    rw [hkeys] at hk2
    rcases mem_foldl_noteKey _ [] c2 hk2 with h | h
    · simp at h
    · exact h
  have hpair : List.Sublist [c1, c2] ((colorCounts comps).map (·.1)) := by
    rw [hkeys]
    exact pair_first_seen c1 c2 hp1 hp2 _ [] (by simp) (by simp) hs2 hseen
  have hentries := pair_entries _ c1 c2 _ _ hnd hcount1 hcount2 hpair
  have hobj := pair_objectEntries _ (c1, Count.number n) (c2, Count.number n) hidx1 hidx2
    hentries
  obtain ⟨nums, he, hs⟩ := sortedColors_unfold comps sorted hsorted
  rw [he] at hobj
  have hstable := pair_sortByCount nums c1 c2 n (pair_numeric nums c1 c2 n hobj)
  have hmapped : List.Sublist [c1, c2] (sorted.map (·.color)) := by
    have := hstable.map fun e : JsString × Nat => e.1
    rw [hs, List.map_map]
    exact this
  exact firstIndex_of_pair c1 c2 _
    ((sortedColors_keys_perm comps sorted hsorted).nodup_iff.mpr hnd) hmapped

theorem sortedColors_ties_first_seen_witness :
    firstIndex (utf16 "red")
        ([⟨utf16 "white", Count.number 2⟩, ⟨utf16 "red", Count.number 1⟩,
          ⟨utf16 "blue", Count.number 1⟩].map fun t : TopColor => t.color)
      < firstIndex (utf16 "blue")
        ([⟨utf16 "white", Count.number 2⟩, ⟨utf16 "red", Count.number 1⟩,
          ⟨utf16 "blue", Count.number 1⟩].map fun t : TopColor => t.color) :=
  sortedColors_ties_first_seen tiedColours _ (utf16 "red") (utf16 "blue") 1
    (by decide) (by decide) (by decide) (by decide) (by decide) (by decide)

/-- C11 (the code at the failing input): in `digitColours` the colour `2` is seen before
the colour `1` and both are tallied once, but `Object.entries` lists the array index keys
first in ascending order and the stable sort keeps that order, so `1` comes before `2` in
the sorted colour list. -/
theorem sortedColors_digit_keys_reordered :
    firstIndex (utf16 "2") (scanned digitColours) < firstIndex (utf16 "1") (scanned digitColours)
      ∧ List.lookup (utf16 "2") (colorCounts digitColours) = some (Count.number 1)
      ∧ List.lookup (utf16 "1") (colorCounts digitColours) = some (Count.number 1)
      ∧ sortedColors digitColours
        = some [⟨utf16 "1", Count.number 1⟩, ⟨utf16 "2", Count.number 1⟩]
      ∧ ¬ firstIndex (utf16 "2") [utf16 "1", utf16 "2"]
          < firstIndex (utf16 "1") [utf16 "1", utf16 "2"] := by
  decide

end SiteAnalyzer
